import Mathlib

/-!
Shallow embedding of the USM-Lap lap-time solver core, translated from the
Python sources (track mesh, solution data model, quasi-steady-state solver,
quasi-transient outer loop, point-mass lateral model, mesh generation), and
a verification of the specification claims against it.

Python floats are modelled as real numbers; `math.sqrt` is `Real.sqrt` (a
negative argument raises `ValueError` in Python, modelled where it is caught);
a Python function that can raise a caught `ValueError` is modelled as
returning an `Option`.
-/

namespace USMLap

/-- One discretised segment of the track (`track/mesh.py`, `TrackNode`). -/
structure TrackNode where
  position : ℝ
  length : ℝ
  curvature : ℝ
  elevation : ℝ
  inclination : ℝ := 0
  banking : ℝ := 0
  gripFactor : ℝ := 1
  sector : ℤ := 1

instance : Inhabited TrackNode := ⟨{ position := 0, length := 1, curvature := 0, elevation := 0 }⟩

/-- Validity conditions enforced by the pydantic field validators on
`TrackNode` (`position ≥ 0`, `length > 0`). Only the parts the claims rely
on are recorded. -/
def TrackNode.Valid (n : TrackNode) : Prop := 0 ≤ n.position ∧ 0 < n.length

/-- A mesh of a track (`track/mesh.py`, `Mesh`). The configuration is
`true` for a closed track. -/
structure Mesh where
  nodes : List TrackNode
  closed : Bool

/-- Total track length: sum of the node lengths (`Mesh.track_length`). -/
noncomputable def Mesh.trackLength (m : Mesh) : ℝ :=
  (m.nodes.map TrackNode.length).sum

/-- The endurance length constant (`ENDURANCE_TRACK_LENGTH = 22000`). -/
noncomputable def enduranceTrackLength : ℝ := 22000

/-- Renumbering loop of `generate_endurance_mesh`: walk the node list,
assigning each node the running position and advancing it by the node
length. -/
noncomputable def renumber (start : ℝ) : List TrackNode → List TrackNode
  | [] => []
  | n :: rest => { n with position := start } :: renumber (start + n.length) rest

/-- Derivation of an endurance mesh (`Mesh.generate_endurance_mesh`):
replicate the node sequence `ceil(22000 / track_length)` times, then
re-number the positions cumulatively from `0`. -/
noncomputable def Mesh.generateEnduranceMesh (m : Mesh) : Mesh :=
  let numberOfLaps : ℕ := ⌈enduranceTrackLength / m.trackLength⌉₊
  let enduranceNodes := (List.replicate numberOfLaps m.nodes).flatten
  { nodes := renumber 0 enduranceNodes, closed := m.closed }

/-- The slowly varying vehicle state (`simulation/vehicle_state.py`,
`StateVariables`). The Python dataclass has no default for `velocity`; the
`get_empty` constructor uses `velocity = 0`, which is taken as the default
here. -/
structure StateVariables where
  velocity : ℝ := 0
  ax : ℝ := 0
  stateOfCharge : ℝ := 1

instance : Inhabited StateVariables := ⟨{}⟩

/-- Per-corner quantities (`utils/datatypes.py`, `FourCorner`), reduced to a
quadruple. -/
def FourCorner (α : Type) : Type := α × α × α × α

/-- The tyre attitude record (`vehicle/tyre/tyre_model.py`): only the normal
load is used by the point-mass model. -/
structure TyreAttitude where
  normalLoad : ℝ

/-- The full vehicle state at a resolved node velocity
(`simulation/vehicle_state.py`, `FullVehicleState`). The solver core reads
only `accumulatorPower` (through `energy_used`). -/
structure FullVehicleState where
  weight : ℝ := 0
  centripetalForce : ℝ := 0
  downforce : ℝ := 0
  drag : ℝ := 0
  resistiveFx : ℝ := 0
  requiredFy : ℝ := 0
  normalForce : ℝ := 0
  normalLoads : FourCorner ℝ := (0, 0, 0, 0)
  tyreAttitudes : FourCorner TyreAttitude := (⟨0⟩, ⟨0⟩, ⟨0⟩, ⟨0⟩)
  lateralTraction : FourCorner ℝ := (0, 0, 0, 0)
  longitudinalTraction : FourCorner ℝ := (0, 0, 0, 0)
  motorSpeed : ℝ := 0
  motorTorque : ℝ := 0
  motorPower : ℝ := 0
  accumulatorPower : ℝ := 0
  motorForce : ℝ := 0

instance : Inhabited FullVehicleState := ⟨{}⟩

/-- The capability set the quasi-steady-state solver consumes from the
vehicle model (`simulation/model/vehicle_model.py`, `VehicleModelInterface`,
as used by `quasi_steady_state.py`). `calculate_acceleration` and
`calculate_deceleration` may raise `ValueError` (tyre failure), modelled as
`none`. `updateStateOfCharge` stands for
`vehicle.powertrain.update_state_of_charge`.
Modelled from the spec: `update_state_of_charge` is absent from the sources
(only its caller `recalculate_state_variables` appears); the spec describes
it as a powertrain-provided monotonically decreasing function of cumulative
energy drawn, so it is kept abstract here and its required property is a
hypothesis of the theorems that use it. -/
structure VehicleModel where
  lateralVehicleModel : StateVariables → TrackNode → ℝ
  calculateAcceleration : TrackNode → StateVariables → ℝ → Option ℝ
  calculateDeceleration : TrackNode → StateVariables → ℝ → Option ℝ
  resolveVehicleState : StateVariables → TrackNode → ℝ → FullVehicleState
  updateStateOfCharge : ℝ → ℝ → ℝ

/-- The solution at a single node (`simulation/solution.py`,
`SolutionNode`). The `next`/`previous` links become list indices. -/
structure SolutionNode where
  trackNode : TrackNode
  maximumVelocity : ℝ := 0
  apex : Bool := false
  initialVelocity : ℝ := 0
  finalVelocity : ℝ := 0
  initialAnchored : Bool := false
  finalAnchored : Bool := false
  acceleration : ℝ := 0
  stateVariables : StateVariables := {}
  vehicleState : FullVehicleState := {}

instance : Inhabited SolutionNode := ⟨{ trackNode := default }⟩

namespace SolutionNode

/-- Length of the underlying track segment (`SolutionNode.length`). -/
noncomputable def length (n : SolutionNode) : ℝ := n.trackNode.length

/-- Average of the initial and final velocities
(`SolutionNode.average_velocity`). -/
noncomputable def averageVelocity (n : SolutionNode) : ℝ :=
  (n.initialVelocity + n.finalVelocity) / 2

/-- Time taken to drive this node (`SolutionNode.time`). Division by a zero
average velocity raises in Python; it is the Lean total division here. -/
noncomputable def time (n : SolutionNode) : ℝ := n.length / n.averageVelocity

/-- Energy used to drive this node (`SolutionNode.energy_used`). -/
noncomputable def energyUsed (n : SolutionNode) : ℝ :=
  n.vehicleState.accumulatorPower * n.time

/-- Setting the initial velocity respects the anchor flag
(`SolutionNode.set_initial_velocity`). -/
noncomputable def setInitialVelocity (n : SolutionNode) (v : ℝ) : SolutionNode :=
  if n.initialAnchored then n else { n with initialVelocity := v }

/-- Setting the final velocity respects the anchor flag
(`SolutionNode.set_final_velocity`). -/
noncomputable def setFinalVelocity (n : SolutionNode) (v : ℝ) : SolutionNode :=
  if n.finalAnchored then n else { n with finalVelocity := v }

/-- Anchoring the initial velocity (`SolutionNode.anchor_initial_velocity`):
set it (respecting an existing anchor), then mark it anchored. -/
noncomputable def anchorInitialVelocity (n : SolutionNode) (v : ℝ) : SolutionNode :=
  { n.setInitialVelocity v with initialAnchored := true }

/-- Marking a node as an apex (`SolutionNode.add_apex`). -/
def addApex (n : SolutionNode) : SolutionNode := { n with apex := true }

/-- Clearing the apex mark (`SolutionNode.remove_apex`). -/
def removeApex (n : SolutionNode) : SolutionNode := { n with apex := false }

end SolutionNode

/-- The solution to a simulation (`simulation/solution.py`, `Solution`):
the node list plus the shared vehicle model reference. -/
structure Solution where
  nodes : List SolutionNode
  vehicleModel : VehicleModel

/-- Total lap time (`Solution.total_time`). -/
noncomputable def Solution.totalTime (s : Solution) : ℝ :=
  (s.nodes.map SolutionNode.time).sum

/-- Reading a node by index (the linked `next`/`previous` view flattened to
list indexing; in the solver all accesses are in range). -/
def getN (nodes : List SolutionNode) (i : ℕ) : SolutionNode := nodes.getD i default

/-- In-place mutation of one node, as list update. -/
def updNode (nodes : List SolutionNode) (i : ℕ) (f : SolutionNode → SolutionNode) :
    List SolutionNode :=
  nodes.set i (f (getN nodes i))

/-- A fresh solution from a track mesh (`create_new_solution`): one default
`SolutionNode` per track node. -/
noncomputable def createNewSolution (mesh : Mesh) (vm : VehicleModel) : Solution :=
  { nodes := mesh.nodes.map (fun tn => { trackNode := tn }), vehicleModel := vm }

/-- Kinematic next velocity (`calculate_next_velocity`):
`sqrt(v0^2 + 2 a s)`. Python `math.sqrt` raises `ValueError` on a negative
argument, modelled as `none`. -/
noncomputable def calculateNextVelocity (initialVelocity acceleration displacement : ℝ) :
    Option ℝ :=
  if initialVelocity ^ 2 + 2 * acceleration * displacement < 0 then none
  else some (Real.sqrt (initialVelocity ^ 2 + 2 * acceleration * displacement))

/-- Kinematic previous velocity (`calculate_previous_velocity`): if the term
under the root is nonpositive the result is clamped to `0`, otherwise it is
the square root. -/
noncomputable def calculatePreviousVelocity (finalVelocity deceleration displacement : ℝ) : ℝ :=
  if finalVelocity ^ 2 + 2 * deceleration * displacement ≤ 0 then 0
  else Real.sqrt (finalVelocity ^ 2 + 2 * deceleration * displacement)

/-- Traction limited velocity when accelerating (`traction_limit_velocity`):
a `ValueError` anywhere in the `try` block (from the tyre model inside
`calculate_acceleration`, or from `math.sqrt` on a negative kinematic term)
falls back to the initial velocity of the node. -/
noncomputable def tractionLimitVelocity (vm : VehicleModel) (node : SolutionNode) : ℝ :=
  match vm.calculateAcceleration node.trackNode node.stateVariables node.initialVelocity with
  | none => node.initialVelocity
  | some a =>
    (calculateNextVelocity node.initialVelocity a node.trackNode.length).getD
      node.initialVelocity

/-- Traction limited velocity when braking (`traction_limit_velocity_braking`):
a `ValueError` from `calculate_deceleration` falls back to the final
velocity of the node (`calculate_previous_velocity` itself cannot raise). -/
noncomputable def tractionLimitVelocityBraking (vm : VehicleModel) (node : SolutionNode) : ℝ :=
  match vm.calculateDeceleration node.trackNode node.stateVariables node.finalVelocity with
  | none => node.finalVelocity
  | some d => calculatePreviousVelocity node.finalVelocity d node.trackNode.length

/-- The node loop of `propagate_forward`, walking indices `i, i+1, ...`:
compute the traction-limited final velocity, cap it by the maximum velocity,
store it, push it to the next node as initial velocity, and handle the apex
pruning at the next node. -/
noncomputable def forwardWalk (vm : VehicleModel) (nodes : List SolutionNode) (i : ℕ) :
    List SolutionNode :=
  if _h : i < nodes.length then
    let node := getN nodes i
    let finalVelocity := min (tractionLimitVelocity vm node) node.maximumVelocity
    let nodes1 := updNode nodes i (fun n => n.setFinalVelocity finalVelocity)
    if i + 1 < nodes.length then
      let nodes2 := updNode nodes1 (i + 1) (fun n => n.setInitialVelocity finalVelocity)
      let next := getN nodes2 (i + 1)
      if next.apex then
        if finalVelocity < next.maximumVelocity then
          forwardWalk vm (updNode nodes2 (i + 1) SolutionNode.removeApex) (i + 1)
        else nodes2
      else forwardWalk vm nodes2 (i + 1)
    else nodes1
  else nodes
termination_by nodes.length - i
decreasing_by
  all_goals simp only [updNode, List.length_set]; omega

/-- Forward propagation from an apex (`propagate_forward`): seed the apex
with its maximum velocity (respecting anchors), then walk forward. -/
noncomputable def propagateForwardNodes (vm : VehicleModel) (nodes : List SolutionNode)
    (startIndex : ℕ) : List SolutionNode :=
  let maximumVelocity := (getN nodes startIndex).maximumVelocity
  forwardWalk vm (updNode nodes startIndex (fun n => n.setInitialVelocity maximumVelocity))
    startIndex

/-- The node loop of `propagate_backward`, walking indices `i, i-1, ..., 0`:
stop at the first node or when the previous final velocity is strictly below
the current one; otherwise clear the apex flag of the previous node if set,
compute the braking-limited velocity, cap it by the previous final velocity,
and write it to both the current initial and the previous final velocity. -/
noncomputable def backwardWalk (vm : VehicleModel) (nodes : List SolutionNode) (i : ℕ) :
    List SolutionNode :=
  match i with
  | 0 => nodes
  | j + 1 =>
    let node := getN nodes (j + 1)
    let prev := getN nodes j
    if prev.finalVelocity < node.finalVelocity then nodes
    else
      let nodes1 := if prev.apex then updNode nodes j SolutionNode.removeApex else nodes
      let tl := tractionLimitVelocityBraking vm node
      let initialVelocity := min tl prev.finalVelocity
      let nodes2 := updNode nodes1 (j + 1) (fun n => n.setInitialVelocity initialVelocity)
      let nodes3 := updNode nodes2 j (fun n => n.setFinalVelocity initialVelocity)
      backwardWalk vm nodes3 j

/-- Backward propagation from an apex (`propagate_backward`). -/
noncomputable def propagateBackwardNodes (vm : VehicleModel) (nodes : List SolutionNode)
    (startIndex : ℕ) : List SolutionNode :=
  backwardWalk vm nodes startIndex

/-- Phase 1 (`solve_maximum_velocities`): store the lateral vehicle model
output at each node as its maximum velocity. -/
noncomputable def solveMaximumVelocitiesNodes (vm : VehicleModel)
    (nodes : List SolutionNode) : List SolutionNode :=
  nodes.map (fun n =>
    { n with maximumVelocity := vm.lateralVehicleModel n.stateVariables n.trackNode })

/-- The plateau scan inside the scipy peak finder `_local_maxima_1d`: the
first index `j` at or after the given one with `j ≥ len - 1` or `x[j] ≠ v`. -/
noncomputable def plateauEnd (x : List ℝ) (v : ℝ) (j : ℕ) : ℕ :=
  if _h : j < x.length - 1 ∧ x.getD j 0 = v then plateauEnd x v (j + 1) else j
termination_by x.length - j
decreasing_by omega

/-- The plateau scan never moves backwards. -/
theorem le_plateauEnd (x : List ℝ) (v : ℝ) (j : ℕ) : j ≤ plateauEnd x v j := by
  induction j using plateauEnd.induct x v with
  | case1 j h ih => rw [plateauEnd, dif_pos h]; omega
  | case2 j h => rw [plateauEnd, dif_neg h]

/-- The scipy peak finder `scipy.signal.find_peaks` reduced to the midpoint
list produced by `_local_maxima_1d`: scan `i` from `1` to `len - 2`; on a
rising edge, scan a plateau of equal values; if a falling edge follows, emit
the plateau midpoint and resume after the plateau. -/
noncomputable def localMaxima (x : List ℝ) (i : ℕ) : List ℕ :=
  if _h : i < x.length - 1 then
    if x.getD (i - 1) 0 < x.getD i 0 then
      let iAhead := plateauEnd x (x.getD i 0) (i + 1)
      if x.getD iAhead 0 < x.getD i 0 then
        (i + (iAhead - 1)) / 2 :: localMaxima x (iAhead + 1)
      else localMaxima x (i + 1)
    else localMaxima x (i + 1)
  else []
termination_by x.length - i
decreasing_by
  · have := le_plateauEnd x (x.getD i 0) (i + 1); omega
  · omega
  · omega

/-- Phase 2 apex identification (`find_apexes`): the peak indices of the
negated maximum-velocity trace, collected into a set together with `0` and
`len - 1`. -/
noncomputable def findApexes (nodes : List SolutionNode) : Finset ℕ :=
  (localMaxima (nodes.map (fun n => -n.maximumVelocity)) 1).toFinset ∪
    {0, nodes.length - 1}

/-- The traversal behind `Solution.set_apexes`: walk the node list with a
running index, flagging the nodes whose index is an apex index. -/
noncomputable def setApexesGo (apexes : Finset ℕ) (i : ℕ) :
    List SolutionNode → List SolutionNode
  | [] => []
  | n :: rest => (if i ∈ apexes then n.addApex else n) :: setApexesGo apexes (i + 1) rest

/-- Flagging the apexes (`Solution.set_apexes`): `add_apex` on every node
whose index is in the apex set. -/
noncomputable def setApexesNodes (nodes : List SolutionNode) (apexes : Finset ℕ) :
    List SolutionNode :=
  setApexesGo apexes 0 nodes

/-- The lexicographic tuple order used by the Python `sorted` call in
`get_sorted_apex_indices` on `(maximum_velocity, index)` pairs. -/
def apexOrder (a b : ℝ × ℕ) : Prop := a.1 < b.1 ∨ (a.1 = b.1 ∧ a.2 ≤ b.2)

noncomputable instance : DecidableRel apexOrder := fun _ _ => by
  unfold apexOrder; infer_instance

/-- Phase 3/4 worklist (`Solution.get_sorted_apex_indices`): indices of
currently flagged apexes, sorted ascending by maximum velocity with ties
broken by ascending index (Python sorts the `(velocity, index)` tuples). -/
noncomputable def getSortedApexIndices (nodes : List SolutionNode) : List ℕ :=
  let indices := (List.range nodes.length).filter (fun i => (getN nodes i).apex)
  let pairs := indices.map (fun i => ((getN nodes i).maximumVelocity, i))
  (pairs.insertionSort apexOrder).map Prod.snd

/-- Phase 3 worklist loop: forward propagation from each worklist apex that
is still flagged when its turn comes. -/
noncomputable def forwardPhase (vm : VehicleModel) (nodes : List SolutionNode) :
    List ℕ → List SolutionNode
  | [] => nodes
  | a :: rest =>
    if (getN nodes a).apex then forwardPhase vm (propagateForwardNodes vm nodes a) rest
    else forwardPhase vm nodes rest

/-- Phase 4 worklist loop: backward propagation from each worklist apex that
is still flagged when its turn comes. -/
noncomputable def backwardPhase (vm : VehicleModel) (nodes : List SolutionNode) :
    List ℕ → List SolutionNode
  | [] => nodes
  | a :: rest =>
    if (getN nodes a).apex then backwardPhase vm (propagateBackwardNodes vm nodes a) rest
    else backwardPhase vm nodes rest

/-- Phase 5 (`Solution.evaluate_full_vehicle_state`): resolve the full
vehicle state of every node at its average velocity. -/
noncomputable def evaluateFullVehicleStateNodes (vm : VehicleModel)
    (nodes : List SolutionNode) : List SolutionNode :=
  nodes.map (fun n =>
    { n with vehicleState :=
        (vm.resolveVehicleState n.stateVariables n.trackNode n.averageVelocity) })

/-- Phase 6 loop (`recalculate_state_variables`): for `i = 1 .. len - 1`,
replace the state variables of node `i` with a fresh record whose state of
charge advances that of node `i - 1` by its energy use. -/
noncomputable def recalcLoop (vm : VehicleModel) (nodes : List SolutionNode) (i : ℕ) :
    List SolutionNode :=
  if _h : i < nodes.length then
    let prev := getN nodes (i - 1)
    let updatedSoc := vm.updateStateOfCharge prev.stateVariables.stateOfCharge prev.energyUsed
    recalcLoop vm
      (updNode nodes i (fun n =>
        { n with stateVariables := ({ stateOfCharge := updatedSoc } : StateVariables) }))
      (i + 1)
  else nodes
termination_by nodes.length - i
decreasing_by simp only [updNode, List.length_set]; omega

/-- Phase 6 entry point (`recalculate_state_variables`). -/
noncomputable def recalculateStateVariablesNodes (vm : VehicleModel)
    (nodes : List SolutionNode) : List SolutionNode :=
  recalcLoop vm nodes 1

/-- Phases 1 through 6 of `QuasiSteadyStateSolver.solve`, after the initial
anchoring step. The phase 3 and phase 4 worklists are each computed once,
before their loop. -/
noncomputable def qssPhases (vm : VehicleModel) (n0 : List SolutionNode) :
    List SolutionNode :=
  let n1 := solveMaximumVelocitiesNodes vm n0
  let n2 := setApexesNodes n1 (findApexes n1)
  let n3 := forwardPhase vm n2 (getSortedApexIndices n2)
  let n4 := backwardPhase vm n3 (getSortedApexIndices n3)
  let n5 := evaluateFullVehicleStateNodes vm n4
  recalculateStateVariablesNodes vm n5

/-- The quasi-steady-state solver (`QuasiSteadyStateSolver.solve`): anchor
the first initial velocity at `0`, then run the six phases in order. -/
noncomputable def qssSolve (s : Solution) : Solution :=
  { s with nodes :=
      qssPhases s.vehicleModel (updNode s.nodes 0 (fun n => n.anchorInitialVelocity 0)) }

/-- Convergence test of the quasi-transient solver
(`_convergence_achieved`): at least two recorded times, and the last two
differ by less than the threshold. -/
noncomputable def convergenceAchieved (times : List ℝ) (threshold : ℝ) : Prop :=
  2 ≤ times.length ∧
    |times.getD (times.length - 1) 0 - times.getD (times.length - 2) 0| < threshold

noncomputable instance (times : List ℝ) (threshold : ℝ) :
    Decidable (convergenceAchieved times threshold) := by
  unfold convergenceAchieved; infer_instance

/-- The iteration cap of the quasi-transient solver
(`MAXIMUM_TRANSIENT_ITERATIONS = 100`). -/
def maximumTransientIterations : ℕ := 100

/-- The convergence tolerance of the quasi-transient solver
(`CONVERGENCE_TOLERANCE = 1e-4`). -/
noncomputable def convergenceTolerance : ℝ := 1 / 10000

/-- The iteration loop of `QuasiTransientSolver.solve`: run the QSS solver,
append the total time, stop early on convergence; with the fuel exhausted
the current solution is returned as is. -/
noncomputable def quasiTransientLoop (s : Solution) (times : List ℝ) : ℕ → Solution
  | 0 => s
  | fuel + 1 =>
    let s1 := qssSolve s
    let times1 := times ++ [s1.totalTime]
    if convergenceAchieved times1 convergenceTolerance then s1
    else quasiTransientLoop s1 times1 fuel

/-- The quasi-transient solver (`QuasiTransientSolver.solve`). -/
noncomputable def quasiTransientSolve (s : Solution) : Solution :=
  quasiTransientLoop s [] maximumTransientIterations

/-- Aerodynamic attitude (`vehicle/aero.py`, `AeroAttitude`); the ride
height and angle fields defaulted to `0` are unused by the point-mass
model. -/
structure AeroAttitude where
  airDensity : ℝ
  velocity : ℝ

/-- Environmental variables (`simulation/environment.py`). -/
structure Environment where
  gravity : ℝ := 981 / 100
  airDensity : ℝ := 1225 / 1000

/-- The vehicle capabilities consumed by the point-mass lateral model
(`vehicle/vehicle.py` plus the aero and front tyre collaborators). The tyre
call can raise `InvalidAttitude` (`ValueError`), modelled as `none`. -/
structure PointMassVehicle where
  totalMass : ℝ
  maximumVelocity : ℝ
  getDownforce : AeroAttitude → ℝ
  getDrag : AeroAttitude → ℝ
  calculateLateralForce : TyreAttitude → ℝ → Option ℝ

/-- Weight component normal to the road (`point_mass.py`). -/
noncomputable def weightZ (vehicle : PointMassVehicle) (env : Environment) (node : TrackNode) :
    ℝ :=
  vehicle.totalMass * env.gravity * Real.cos node.banking * Real.cos node.inclination

/-- Lateral weight component (`point_mass.py`). -/
noncomputable def weightY (vehicle : PointMassVehicle) (env : Environment) (node : TrackNode) :
    ℝ :=
  -(vehicle.totalMass * env.gravity) * Real.sin node.banking

/-- Longitudinal weight component (`point_mass.py`). -/
noncomputable def weightX (vehicle : PointMassVehicle) (env : Environment) (node : TrackNode) :
    ℝ :=
  vehicle.totalMass * env.gravity * Real.sin node.inclination

/-- Available lateral force at velocity `v` inside the lateral fixed-point
loop of `PointMassVehicleModel.lateral_vehicle_model`: front and rear tyre
lateral forces at the shared normal load, doubled; a tyre `ValueError` is
caught and yields `0`. -/
noncomputable def lateralAvailableFy (vehicle : PointMassVehicle) (env : Environment)
    (node : TrackNode) (v : ℝ) : ℝ :=
  let aeroAttitude : AeroAttitude := { airDensity := env.airDensity, velocity := v }
  let downforce := vehicle.getDownforce aeroAttitude
  let drag := vehicle.getDrag aeroAttitude
  let normalLoad := (weightZ vehicle env node + downforce) / 4
  let requiredFx := drag + weightX vehicle env node
  let tyreAttitude : TyreAttitude := ⟨normalLoad⟩
  match vehicle.calculateLateralForce tyreAttitude 0,
      vehicle.calculateLateralForce tyreAttitude (requiredFx / 2) with
  | some fyFront, some fyRear => 2 * (fyFront + fyRear)
  | _, _ => 0

/-- Required lateral force at velocity `v` inside the lateral fixed-point
loop: weight plus centripetal demand, in magnitude. -/
noncomputable def lateralRequiredFy (vehicle : PointMassVehicle) (env : Environment)
    (node : TrackNode) (v : ℝ) : ℝ :=
  |weightY vehicle env node + vehicle.totalMass * v ^ 2 * node.curvature|

/-- One velocity update of the lateral fixed-point loop:
`v := sqrt(ay / |curvature|) - 0.001` with
`ay = (available_fy + weight_y) / total_mass`. -/
noncomputable def lateralStep (vehicle : PointMassVehicle) (env : Environment)
    (node : TrackNode) (v : ℝ) : ℝ :=
  Real.sqrt ((lateralAvailableFy vehicle env node v + weightY vehicle env node) /
    vehicle.totalMass / |node.curvature|) - 1 / 1000

/-- The `while i < 10000` loop of `lateral_vehicle_model` as fuel
recursion: update the velocity while the available lateral force is below
the required one, otherwise stop; with the fuel exhausted the current
velocity is returned. -/
noncomputable def lateralLoop (vehicle : PointMassVehicle) (env : Environment)
    (node : TrackNode) : ℕ → ℝ → ℝ
  | 0, v => v
  | fuel + 1, v =>
    if lateralAvailableFy vehicle env node v < lateralRequiredFy vehicle env node v then
      lateralLoop vehicle env node fuel (lateralStep vehicle env node v)
    else v

/-- The point-mass lateral vehicle model
(`PointMassVehicleModel.lateral_vehicle_model`): the fixed-point iteration
capped at 10000 steps, started from the motor-limited maximum velocity. -/
noncomputable def lateralVehicleModelPM (vehicle : PointMassVehicle) (env : Environment)
    (node : TrackNode) : ℝ :=
  lateralLoop vehicle env node 10000 vehicle.maximumVelocity

/-- The lateral velocity limit operation (`Simulation.solve_maximum_velocity`):
on zero curvature return the vehicle maximum velocity immediately, otherwise
run the point-mass lateral model. -/
noncomputable def solveMaximumVelocity (vehicle : PointMassVehicle) (env : Environment)
    (node : TrackNode) : ℝ :=
  if node.curvature = 0 then vehicle.maximumVelocity
  else lateralVehicleModelPM vehicle env node

/-- The phase 1 assignment over a mesh done by `Simulation.solve`: one
maximum velocity per track node from `solve_maximum_velocity`. -/
noncomputable def solveMeshMaximumVelocities (vehicle : PointMassVehicle) (env : Environment)
    (mesh : Mesh) : List ℝ :=
  mesh.nodes.map (solveMaximumVelocity vehicle env)

/-- A segment of track shape data (`track/track_data.py`, `Segment`); its
`curvature` property is `1 / corner_radius`, which is `0` on a straight
(infinite radius) and signed by the section type. -/
structure Segment where
  length : ℝ
  curvature : ℝ

/-- Shape data of the track (`track/track_data.py`, `ShapeData`). -/
structure ShapeData where
  segments : List Segment

/-- Total length of the track shape (`ShapeData.total_length`). -/
noncomputable def ShapeData.totalLength (s : ShapeData) : ℝ :=
  (s.segments.map Segment.length).sum

/-- Running sums of a list.
Modelled from the spec: `utils.array.cumsum` is imported by
`track_data.py` but absent from the sources; `interpolate_curvature` uses it
to turn segment lengths into segment end positions, which fixes it as the
list of running sums. -/
def cumsum (x : List ℝ) : List ℝ := (x.scanl (· + ·) 0).tail

/-- Differences of consecutive elements (`utils/array.py`, `diff`). -/
def diffList (x : List ℝ) : List ℝ := (x.zip x.tail).map (fun p => p.2 - p.1)

/-- Linear interpolation of one sample point in the style of `numpy.interp`:
clamped to the first and last data values outside the data range, linear
between neighbouring data points inside it. -/
noncomputable def npInterpPoint (x : ℝ) : List ℝ → List ℝ → ℝ
  | [_], f0 :: _ => f0
  | x0 :: x1 :: xrest, f0 :: f1 :: frest =>
    if x ≤ x0 then f0
    else if x ≤ x1 then f0 + (f1 - f0) * (x - x0) / (x1 - x0)
    else npInterpPoint x (x1 :: xrest) (f1 :: frest)
  | _, _ => 0

/-- Vectorised `numpy.interp`. -/
noncomputable def npInterp (xs xp fp : List ℝ) : List ℝ :=
  xs.map (fun x => npInterpPoint x xp fp)

/-- Curvature interpolation (`ShapeData.interpolate_curvature`): linear
interpolation anchored at segment midpoints, with an optional wrap-around
anchor for a closed track. -/
noncomputable def interpolateCurvature (s : ShapeData) (position : List ℝ)
    (closedTrack : Bool) : List ℝ :=
  let lengths := s.segments.map Segment.length
  let endPositions := cumsum lengths
  let curvaturePosition := (endPositions.zip lengths).map (fun p => p.1 - 1 / 2 * p.2)
  let curvatureValue := s.segments.map Segment.curvature
  if closedTrack then
    npInterp position
      (curvaturePosition ++ [endPositions.getLastD 0 + 1 / 2 * lengths.getD 0 0])
      (curvatureValue ++ [curvatureValue.getD 0 0])
  else npInterp position curvaturePosition curvatureValue

/-- The lookup advance inside `interp_previous`: while the sample position
is at or beyond the next data position, advance. The data positions carry
the `math.inf` sentinel, hence `EReal`. -/
noncomputable def interpPrevAdvance (xi : ℝ) (xp : List EReal) (pos : ℕ) : ℕ :=
  if _h : pos + 1 < xp.length ∧ xp.getD (pos + 1) ⊤ ≤ (xi : EReal) then
    interpPrevAdvance xi xp (pos + 1)
  else pos
termination_by xp.length - pos
decreasing_by omega

/-- The sample loop of `interp_previous`, carrying the persistent lookup
position across samples. -/
noncomputable def interpPrevGo {T : Type} [Inhabited T] (xp : List EReal) (yp : List T) :
    List ℝ → ℕ → List T
  | [], _ => []
  | xi :: rest, pos =>
    let pos1 := interpPrevAdvance xi xp pos
    yp.getD pos1 default :: interpPrevGo xp yp rest pos1

/-- Previous-value interpolation (`utils/array.py`, `interp_previous`).
The function appends an infinite sentinel position and a duplicate of the
last value to the data lists it is given — in Python these are the lists
owned by the caller, so the mutated lists are returned alongside the
result. -/
noncomputable def interpPrevious {T : Type} [Inhabited T] (x : List ℝ) (xp : List EReal)
    (yp : List T) : List T × List EReal × List T :=
  let xp1 := xp ++ [⊤]
  let yp1 := yp ++ [yp.getLastD default]
  (interpPrevGo xp1 yp1 x 0, xp1, yp1)

/-- Data recorded against startpoints (`track/track_data.py`,
`StartpointData`, covering `GripFactorData` at `T = ℝ` and `SectorData` at
`T = ℤ`). -/
structure StartpointData (T : Type) where
  position : List EReal
  value : List T

/-- Interpolation of startpoint data (`StartpointData.interpolate`): along
with the interpolated values, the updated (mutated) data record is
returned. -/
noncomputable def StartpointData.interpolate {T : Type} [Inhabited T] (d : StartpointData T)
    (pos : List ℝ) : List T × StartpointData T :=
  let r := interpPrevious pos d.position d.value
  (r.1, ⟨r.2.1, r.2.2⟩)

/-- Data recorded at locations (`track/track_data.py`, `LocationData`,
covering `ElevationData` and `BankingData`); interpolation is the pure
`numpy.interp`. -/
structure LocationData where
  position : List ℝ
  value : List ℝ

/-- Track data bundle (`track/track_data.py`, `TrackData`); the metadata,
event, direction and mirror fields play no part in mesh generation and are
omitted. -/
structure TrackData where
  shape : ShapeData
  elevation : LocationData
  banking : LocationData
  gripFactor : StartpointData ℝ
  sector : StartpointData ℤ
  closed : Bool

/-- Inclination derivation (`MeshGenerator._calculate_inclination`): the
arctangent of adjacent slope pairs, linearly interpolated back onto the
sample positions from the interval midpoints. -/
noncomputable def calculateInclination (position elevation : List ℝ) : List ℝ :=
  let diffPosition := diffList position
  let diffElevation := diffList elevation
  let inclinationPosition := (List.range diffPosition.length).map
    (fun i => position.getD i 0 + diffPosition.getD i 0 / 2)
  let inclinationValue := (List.range diffPosition.length).map
    (fun i => Real.arctan (diffElevation.getD i 0 / diffPosition.getD i 0))
  npInterp position inclinationPosition inclinationValue

/-- Sample positions in the style of `numpy.arange(start, stop, step)`. -/
noncomputable def arange (start stop step : ℝ) : List ℝ :=
  (List.range ⌈(stop - start) / step⌉₊).map (fun k => start + k * step)

/-- Mesh generation (`MeshGenerator.generate_mesh`): sample positions at
the target resolution, interpolate every channel of the track data at the
samples, and emit one `TrackNode` per sample. The updated `TrackData` is
returned alongside the mesh because the two startpoint interpolations
mutate their data lists. Python `round` rounds half to even; the Lean
`round` (half up) differs only when the length ratio is an exact half
integer. -/
noncomputable def generateMesh (resolution : ℝ) (td : TrackData) : Mesh × TrackData :=
  let trackLength := td.shape.totalLength
  let nodeCount : ℤ := round (trackLength / resolution)
  let spacing := trackLength / ((nodeCount : ℝ) - 1)
  let position := arange 0 trackLength spacing
  let length := diffList (position ++ [trackLength])
  let curvature := interpolateCurvature td.shape position false
  let elevation := npInterp position td.elevation.position td.elevation.value
  let banking := npInterp position td.banking.position td.banking.value
  let grip := td.gripFactor.interpolate position
  let td1 : TrackData := { td with gripFactor := grip.2 }
  let sect := td1.sector.interpolate position
  let td2 : TrackData := { td1 with sector := sect.2 }
  let inclination := calculateInclination position elevation
  let nodes := (List.range position.length).map (fun i =>
    ({ position := position.getD i 0, length := length.getD i 0,
       curvature := curvature.getD i 0, elevation := elevation.getD i 0,
       inclination := inclination.getD i 0, banking := banking.getD i 0,
       gripFactor := grip.1.getD i 1, sector := sect.1.getD i 1 } : TrackNode))
  (⟨nodes, td.closed⟩, td2)

/-! Helper lemmas about indexed node updates. -/

theorem length_updNode (nodes : List SolutionNode) (i : ℕ) (f : SolutionNode → SolutionNode) :
    (updNode nodes i f).length = nodes.length := by
  simp [updNode, List.length_set]

theorem getN_updNode_same (nodes : List SolutionNode) (i : ℕ) (f : SolutionNode → SolutionNode)
    (h : i < nodes.length) : getN (updNode nodes i f) i = f (getN nodes i) := by
  simp [updNode, getN, List.getD_eq_getElem?_getD, List.getElem?_set, h]

theorem getN_updNode_ne (nodes : List SolutionNode) (i j : ℕ) (f : SolutionNode → SolutionNode)
    (h : i ≠ j) : getN (updNode nodes i f) j = getN nodes j := by
  simp [updNode, getN, List.getD_eq_getElem?_getD, List.getElem?_set, h]

theorem getN_map (g : SolutionNode → SolutionNode) (nodes : List SolutionNode) (j : ℕ)
    (h : j < nodes.length) : getN (nodes.map g) j = g (getN nodes j) := by
  have hj : nodes[j]? = some nodes[j] := List.getElem?_eq_getElem h
  simp [getN, List.getD_eq_getElem?_getD, List.getElem?_map, hj]

theorem getN_updNode (nodes : List SolutionNode) (i j : ℕ) (f : SolutionNode → SolutionNode) :
    getN (updNode nodes i f) j =
      if i = j ∧ i < nodes.length then f (getN nodes i) else getN nodes j := by
  by_cases hij : i = j
  · subst hij
    by_cases hlen : i < nodes.length
    · simp [getN_updNode_same nodes i f hlen, hlen]
    · simp only [hlen, and_false, if_false]
      simp [updNode, getN, List.getD_eq_getElem?_getD, List.getElem?_set, hlen,
        List.getElem?_eq_none (not_lt.mp hlen)]
  · simp [getN_updNode_ne nodes i j f hij, hij]

theorem getN_of_length_le (nodes : List SolutionNode) (j : ℕ) (h : nodes.length ≤ j) :
    getN nodes j = default := by
  simp [getN, List.getD_eq_getElem?_getD, List.getElem?_eq_none h]

theorem getN_mapIdx (g : ℕ → SolutionNode → SolutionNode) (nodes : List SolutionNode) (j : ℕ)
    (h : j < nodes.length) : getN (nodes.mapIdx g) j = g j (getN nodes j) := by
  have hj : nodes[j]? = some nodes[j] := List.getElem?_eq_getElem h
  simp [getN, List.getD_eq_getElem?_getD, List.getElem?_mapIdx, hj]

/-! Anchored-initial-velocity preservation: none of the solver phases ever
changes an initial-anchored flag, and an anchored initial velocity is never
overwritten. -/

/-- A per-node update that keeps the initial anchor flag and, on an
anchored node, the initial velocity. -/
def AnchorSafe (f : SolutionNode → SolutionNode) : Prop :=
  ∀ n : SolutionNode, (f n).initialAnchored = n.initialAnchored ∧
    (n.initialAnchored = true → (f n).initialVelocity = n.initialVelocity)

/-- Pointwise relation between a node list and its image under a phase:
anchor flags agree, and anchored initial velocities are untouched. -/
def AnchorInv (before after : List SolutionNode) : Prop :=
  ∀ j, (getN after j).initialAnchored = (getN before j).initialAnchored ∧
    ((getN before j).initialAnchored = true →
      (getN after j).initialVelocity = (getN before j).initialVelocity)

theorem anchorInv_refl (nodes : List SolutionNode) : AnchorInv nodes nodes :=
  fun _ => ⟨rfl, fun _ => rfl⟩

theorem anchorInv_trans {a b c : List SolutionNode} (h1 : AnchorInv a b) (h2 : AnchorInv b c) :
    AnchorInv a c := by
  intro j
  obtain ⟨e1, v1⟩ := h1 j
  obtain ⟨e2, v2⟩ := h2 j
  refine ⟨e2.trans e1, fun h => ?_⟩
  exact (v2 (e1.trans h)).trans (v1 h)

theorem anchorSafe_setInitialVelocity (v : ℝ) :
    AnchorSafe (fun n => n.setInitialVelocity v) := by
  intro n
  by_cases h : n.initialAnchored <;> simp [SolutionNode.setInitialVelocity, h]

theorem anchorSafe_setFinalVelocity (v : ℝ) :
    AnchorSafe (fun n => n.setFinalVelocity v) := by
  intro n
  by_cases h : n.finalAnchored <;> simp [SolutionNode.setFinalVelocity, h]

theorem anchorSafe_removeApex : AnchorSafe SolutionNode.removeApex := by
  intro n; simp [SolutionNode.removeApex]

theorem anchorInv_updNode (nodes : List SolutionNode) (i : ℕ) (f : SolutionNode → SolutionNode)
    (hf : AnchorSafe f) : AnchorInv nodes (updNode nodes i f) := by
  intro j
  rw [getN_updNode]
  split
  · rename_i hcase
    obtain ⟨rfl, _⟩ := hcase
    exact hf _
  · exact ⟨rfl, fun _ => rfl⟩

theorem anchorInv_map (g : SolutionNode → SolutionNode) (nodes : List SolutionNode)
    (hg : AnchorSafe g) : AnchorInv nodes (nodes.map g) := by
  intro j
  by_cases h : j < nodes.length
  · rw [getN_map g nodes j h]
    exact hg (getN nodes j)
  · rw [getN_of_length_le (nodes.map g) j (by simpa using not_lt.mp h),
      getN_of_length_le nodes j (not_lt.mp h)]
    exact ⟨rfl, fun _ => rfl⟩

theorem anchorInv_mapIdx (g : ℕ → SolutionNode → SolutionNode) (nodes : List SolutionNode)
    (hg : ∀ i, AnchorSafe (g i)) : AnchorInv nodes (nodes.mapIdx g) := by
  intro j
  by_cases h : j < nodes.length
  · rw [getN_mapIdx g nodes j h]
    exact hg j (getN nodes j)
  · rw [getN_of_length_le (nodes.mapIdx g) j (by simpa using not_lt.mp h),
      getN_of_length_le nodes j (not_lt.mp h)]
    exact ⟨rfl, fun _ => rfl⟩

theorem anchorInv_forwardWalk (vm : VehicleModel) (nodes : List SolutionNode) (i : ℕ) :
    AnchorInv nodes (forwardWalk vm nodes i) := by
  induction nodes, i using forwardWalk.induct vm with
  | case1 nodes i h node fv nodes1 hnext nodes2 next hapex hfv ih =>
    rw [forwardWalk, dif_pos h, if_pos hnext, if_pos hapex, if_pos hfv]
    have a1 : AnchorInv nodes nodes1 :=
      anchorInv_updNode nodes i _ (anchorSafe_setFinalVelocity fv)
    have a2 : AnchorInv nodes1 nodes2 :=
      anchorInv_updNode nodes1 (i + 1) _ (anchorSafe_setInitialVelocity fv)
    have a3 : AnchorInv nodes2 (updNode nodes2 (i + 1) SolutionNode.removeApex) :=
      anchorInv_updNode nodes2 (i + 1) _ anchorSafe_removeApex
    exact anchorInv_trans (anchorInv_trans (anchorInv_trans a1 a2) a3) ih
  | case2 nodes i h node fv nodes1 hnext nodes2 next hapex hfv =>
    rw [forwardWalk, dif_pos h, if_pos hnext, if_pos hapex, if_neg hfv]
    have a1 : AnchorInv nodes nodes1 :=
      anchorInv_updNode nodes i _ (anchorSafe_setFinalVelocity fv)
    have a2 : AnchorInv nodes1 nodes2 :=
      anchorInv_updNode nodes1 (i + 1) _ (anchorSafe_setInitialVelocity fv)
    exact anchorInv_trans a1 a2
  | case3 nodes i h node fv nodes1 hnext nodes2 next hapex ih =>
    rw [forwardWalk, dif_pos h, if_pos hnext, if_neg hapex]
    have a1 : AnchorInv nodes nodes1 :=
      anchorInv_updNode nodes i _ (anchorSafe_setFinalVelocity fv)
    have a2 : AnchorInv nodes1 nodes2 :=
      anchorInv_updNode nodes1 (i + 1) _ (anchorSafe_setInitialVelocity fv)
    exact anchorInv_trans (anchorInv_trans a1 a2) ih
  | case4 nodes i h hnext =>
    rw [forwardWalk, dif_pos h, if_neg hnext]
    exact anchorInv_updNode nodes i _ (anchorSafe_setFinalVelocity _)
  | case5 nodes i h =>
    rw [forwardWalk, dif_neg h]
    exact anchorInv_refl nodes

theorem anchorInv_backwardWalk (vm : VehicleModel) (nodes : List SolutionNode) (i : ℕ) :
    AnchorInv nodes (backwardWalk vm nodes i) := by
  induction nodes, i using backwardWalk.induct vm with
  | case1 nodes => exact anchorInv_refl nodes
  | case2 nodes j node prev hstop =>
    rw [backwardWalk, if_pos hstop]
    exact anchorInv_refl nodes
  | case3 nodes j node prev hstop nodes1 tl iv nodes2 nodes3 ih =>
    rw [backwardWalk, if_neg hstop]
    have a1 : AnchorInv nodes nodes1 := by
      by_cases hap : prev.apex = true
      · simp only [nodes1, hap, if_true]
        exact anchorInv_updNode nodes j _ anchorSafe_removeApex
      · simp only [nodes1, hap, if_false]
        exact anchorInv_refl nodes
    have a2 : AnchorInv nodes1 nodes2 :=
      anchorInv_updNode nodes1 (j + 1) _ (anchorSafe_setInitialVelocity iv)
    have a3 : AnchorInv nodes2 nodes3 :=
      anchorInv_updNode nodes2 j _ (anchorSafe_setFinalVelocity iv)
    exact anchorInv_trans (anchorInv_trans (anchorInv_trans a1 a2) a3) ih

theorem anchorInv_forwardPhase (vm : VehicleModel) (nodes : List SolutionNode)
    (worklist : List ℕ) : AnchorInv nodes (forwardPhase vm nodes worklist) := by
  induction worklist generalizing nodes with
  | nil => exact anchorInv_refl nodes
  | cons a rest ih =>
    rw [forwardPhase]
    split
    · refine anchorInv_trans ?_ (ih _)
      refine anchorInv_trans ?_ (anchorInv_forwardWalk vm _ a)
      exact anchorInv_updNode _ _ _ (anchorSafe_setInitialVelocity _)
    · exact ih nodes

theorem anchorInv_backwardPhase (vm : VehicleModel) (nodes : List SolutionNode)
    (worklist : List ℕ) : AnchorInv nodes (backwardPhase vm nodes worklist) := by
  induction worklist generalizing nodes with
  | nil => exact anchorInv_refl nodes
  | cons a rest ih =>
    rw [backwardPhase]
    split
    · exact anchorInv_trans (anchorInv_backwardWalk vm nodes a) (ih _)
    · exact ih nodes

theorem anchorInv_solveMaximumVelocities (vm : VehicleModel) (nodes : List SolutionNode) :
    AnchorInv nodes (solveMaximumVelocitiesNodes vm nodes) :=
  anchorInv_map _ nodes (fun _ => ⟨rfl, fun _ => rfl⟩)

theorem getN_setApexesGo (apexes : Finset ℕ) (l : List SolutionNode) :
    ∀ (k j : ℕ), getN (setApexesGo apexes k l) j =
      if j < l.length then
        (if (k + j) ∈ apexes then (getN l j).addApex else getN l j)
      else default := by
  induction l with
  | nil => intro k j; simp [setApexesGo, getN]
  | cons n rest ih =>
    intro k j
    cases j with
    | zero =>
      simp [setApexesGo, getN]
    | succ j =>
      have hs : getN (setApexesGo apexes k (n :: rest)) (j + 1) =
          getN (setApexesGo apexes (k + 1) rest) j := by
        simp [setApexesGo, getN]
      rw [hs, ih (k + 1) j]
      have harith : k + 1 + j = k + (j + 1) := by omega
      have hgn : getN (n :: rest) (j + 1) = getN rest j := by simp [getN]
      simp [harith, Nat.succ_lt_succ_iff, hgn]

theorem anchorInv_setApexes (nodes : List SolutionNode) (apexes : Finset ℕ) :
    AnchorInv nodes (setApexesNodes nodes apexes) := by
  intro j
  rw [setApexesNodes, getN_setApexesGo]
  split
  · split
    · exact ⟨rfl, fun _ => rfl⟩
    · exact ⟨rfl, fun _ => rfl⟩
  · rename_i hj
    rw [getN_of_length_le nodes j (not_lt.mp hj)]
    exact ⟨rfl, fun _ => rfl⟩

theorem anchorInv_evaluateFullVehicleState (vm : VehicleModel) (nodes : List SolutionNode) :
    AnchorInv nodes (evaluateFullVehicleStateNodes vm nodes) :=
  anchorInv_map _ nodes (fun _ => ⟨rfl, fun _ => rfl⟩)

theorem anchorInv_recalcLoop (vm : VehicleModel) (nodes : List SolutionNode) (i : ℕ) :
    AnchorInv nodes (recalcLoop vm nodes i) := by
  induction nodes, i using recalcLoop.induct vm with
  | case1 nodes i h prev soc ih =>
    rw [recalcLoop, dif_pos h]
    exact anchorInv_trans
      (anchorInv_updNode nodes i
        (fun n => { n with stateVariables := ({ stateOfCharge := soc } : StateVariables) })
        (fun n => ⟨rfl, fun _ => rfl⟩)) ih
  | case2 nodes i h =>
    rw [recalcLoop, dif_neg h]
    exact anchorInv_refl nodes

/-- Anchored-initial preservation across the whole phase pipeline that
follows the anchoring step of `qssSolve`. -/
theorem anchorInv_qssPhases (vm : VehicleModel) (n0 : List SolutionNode) :
    AnchorInv n0 (qssPhases vm n0) := by
  let m1 := solveMaximumVelocitiesNodes vm n0
  let m2 := setApexesNodes m1 (findApexes m1)
  let m3 := forwardPhase vm m2 (getSortedApexIndices m2)
  let m4 := backwardPhase vm m3 (getSortedApexIndices m3)
  let m5 := evaluateFullVehicleStateNodes vm m4
  have h1 : AnchorInv n0 m1 := anchorInv_solveMaximumVelocities vm n0
  have h2 : AnchorInv m1 m2 := anchorInv_setApexes m1 (findApexes m1)
  have h3 : AnchorInv m2 m3 := anchorInv_forwardPhase vm m2 (getSortedApexIndices m2)
  have h4 : AnchorInv m3 m4 := anchorInv_backwardPhase vm m3 (getSortedApexIndices m3)
  have h5 : AnchorInv m4 m5 := anchorInv_evaluateFullVehicleState vm m4
  have h6 : AnchorInv m5 (recalculateStateVariablesNodes vm m5) := anchorInv_recalcLoop vm m5 1
  exact anchorInv_trans h1 (anchorInv_trans h2 (anchorInv_trans h3
    (anchorInv_trans h4 (anchorInv_trans h5 h6))))

/-! ### Claim C7 — local recovery of tyre-model failures -/

/-- C7: tyre-model failures during propagation are recovered locally: a
failing acceleration computation makes the forward traction-limited
velocity fall back to the initial velocity of the node; a failing
deceleration computation makes the backward braking-limited velocity fall
back to the final velocity of the node; and a nonpositive kinematic term
under the backward square root is clamped to `0`. -/
theorem c7_tyre_failures_recovered (vm : VehicleModel) (node : SolutionNode) :
    (vm.calculateAcceleration node.trackNode node.stateVariables node.initialVelocity = none →
      tractionLimitVelocity vm node = node.initialVelocity) ∧
    (vm.calculateDeceleration node.trackNode node.stateVariables node.finalVelocity = none →
      tractionLimitVelocityBraking vm node = node.finalVelocity) ∧
    (∀ d, vm.calculateDeceleration node.trackNode node.stateVariables node.finalVelocity =
        some d →
      node.finalVelocity ^ 2 + 2 * d * node.trackNode.length ≤ 0 →
      tractionLimitVelocityBraking vm node = 0) := by
  refine ⟨fun h => ?_, fun h => ?_, fun d hd hterm => ?_⟩
  · simp [tractionLimitVelocity, h]
  · simp [tractionLimitVelocityBraking, h]
  · simp [tractionLimitVelocityBraking, hd, calculatePreviousVelocity, if_pos hterm]

/-- A vehicle model whose longitudinal computations always fail. -/
noncomputable def failingVM : VehicleModel :=
  { lateralVehicleModel := fun _ _ => 0
    calculateAcceleration := fun _ _ _ => none
    calculateDeceleration := fun _ _ _ => none
    resolveVehicleState := fun _ _ _ => {}
    updateStateOfCharge := fun soc _ => soc }

/-- A vehicle model with constant acceleration `0` and constant
deceleration `-5` (a deceleration so negative that the backward kinematic
term goes nonpositive on a unit node). -/
noncomputable def clampVM : VehicleModel :=
  { lateralVehicleModel := fun _ _ => 0
    calculateAcceleration := fun _ _ _ => some 0
    calculateDeceleration := fun _ _ _ => some (-5)
    resolveVehicleState := fun _ _ _ => {}
    updateStateOfCharge := fun soc _ => soc }

/-- A concrete solution node on a unit-length straight with initial
velocity `3` and final velocity `2`. -/
noncomputable def c7Node : SolutionNode :=
  { trackNode := { position := 0, length := 1, curvature := 0, elevation := 0 }
    initialVelocity := 3
    finalVelocity := 2 }

/-- Witness for C7 at a concrete node: with failing tyre calls the forward
fallback returns the initial velocity `3` and the backward fallback the
final velocity `2`; with deceleration `-5` the backward kinematic term is
`4 - 10 ≤ 0` and the result clamps to `0`. -/
theorem c7_tyre_failures_recovered_witness :
    tractionLimitVelocity failingVM c7Node = 3 ∧
    tractionLimitVelocityBraking failingVM c7Node = 2 ∧
    tractionLimitVelocityBraking clampVM c7Node = 0 := by
  refine ⟨?_, ?_, ?_⟩
  · have h := (c7_tyre_failures_recovered failingVM c7Node).1 rfl
    simpa [c7Node] using h
  · have h := (c7_tyre_failures_recovered failingVM c7Node).2.1 rfl
    simpa [c7Node] using h
  · exact (c7_tyre_failures_recovered clampVM c7Node).2.2 (-5) rfl (by norm_num [c7Node])

/-! Preservation of the final-velocity bound `final ≤ max`: phase 3 only
writes final velocities capped by the maximum velocity of the same node,
and phase 4 only lowers final velocities. -/

/-- The per-node bound of the amended claim C1. -/
def FinalBound (nodes : List SolutionNode) : Prop :=
  ∀ j, (getN nodes j).finalVelocity ≤ (getN nodes j).maximumVelocity

/-- Per-node updates that touch neither the final nor the maximum
velocity. -/
def FinalMaxSafe (f : SolutionNode → SolutionNode) : Prop :=
  ∀ n : SolutionNode, (f n).finalVelocity = n.finalVelocity ∧
    (f n).maximumVelocity = n.maximumVelocity

theorem finalMaxSafe_setInitialVelocity (v : ℝ) :
    FinalMaxSafe (fun n => n.setInitialVelocity v) := by
  intro n
  by_cases h : n.initialAnchored <;> simp [SolutionNode.setInitialVelocity, h]

theorem finalMaxSafe_anchorInitialVelocity (v : ℝ) :
    FinalMaxSafe (fun n => n.anchorInitialVelocity v) := by
  intro n
  by_cases h : n.initialAnchored <;>
    simp [SolutionNode.anchorInitialVelocity, SolutionNode.setInitialVelocity, h]

theorem finalMaxSafe_removeApex : FinalMaxSafe SolutionNode.removeApex := by
  intro n; simp [SolutionNode.removeApex]

theorem finalBound_updNode_safe {nodes : List SolutionNode} {i : ℕ}
    {f : SolutionNode → SolutionNode} (hf : FinalMaxSafe f) (h : FinalBound nodes) :
    FinalBound (updNode nodes i f) := by
  intro j
  rw [getN_updNode]
  split
  · rename_i hcase
    obtain ⟨rfl, _⟩ := hcase
    rw [(hf _).1, (hf _).2]
    exact h i
  · exact h j

theorem finalBound_map_safe {g : SolutionNode → SolutionNode} {nodes : List SolutionNode}
    (hg : FinalMaxSafe g) (h : FinalBound nodes) : FinalBound (nodes.map g) := by
  intro j
  by_cases hj : j < nodes.length
  · rw [getN_map g nodes j hj, (hg _).1, (hg _).2]
    exact h j
  · rw [getN_of_length_le (nodes.map g) j (by simpa using not_lt.mp hj)]
    exact le_rfl

theorem finalBound_mapIdx_safe {g : ℕ → SolutionNode → SolutionNode}
    {nodes : List SolutionNode} (hg : ∀ i, FinalMaxSafe (g i)) (h : FinalBound nodes) :
    FinalBound (nodes.mapIdx g) := by
  intro j
  by_cases hj : j < nodes.length
  · rw [getN_mapIdx g nodes j hj, (hg j _).1, (hg j _).2]
    exact h j
  · rw [getN_of_length_le (nodes.mapIdx g) j (by simpa using not_lt.mp hj)]
    exact le_rfl

theorem finalBound_updNode_setFinal {nodes : List SolutionNode} {i : ℕ} {v : ℝ}
    (h : FinalBound nodes) (hv : v ≤ (getN nodes i).maximumVelocity) :
    FinalBound (updNode nodes i (fun n => n.setFinalVelocity v)) := by
  intro j
  rw [getN_updNode]
  split
  · rename_i hcase
    obtain ⟨rfl, _⟩ := hcase
    by_cases ha : (getN nodes i).finalAnchored
    · simpa [SolutionNode.setFinalVelocity, ha] using h i
    · simpa [SolutionNode.setFinalVelocity, ha] using hv
  · exact h j

theorem finalBound_forwardWalk (vm : VehicleModel) (nodes : List SolutionNode) (i : ℕ)
    (h : FinalBound nodes) : FinalBound (forwardWalk vm nodes i) := by
  induction nodes, i using forwardWalk.induct vm with
  | case1 nodes i hi node fv nodes1 hnext nodes2 next hapex hfv ih =>
    rw [forwardWalk, dif_pos hi, if_pos hnext, if_pos hapex, if_pos hfv]
    have f1 : FinalBound nodes1 := finalBound_updNode_setFinal h (min_le_right _ _)
    have f2 : FinalBound nodes2 := finalBound_updNode_safe (finalMaxSafe_setInitialVelocity fv) f1
    exact ih (finalBound_updNode_safe finalMaxSafe_removeApex f2)
  | case2 nodes i hi node fv nodes1 hnext nodes2 next hapex hfv =>
    rw [forwardWalk, dif_pos hi, if_pos hnext, if_pos hapex, if_neg hfv]
    have f1 : FinalBound nodes1 := finalBound_updNode_setFinal h (min_le_right _ _)
    exact finalBound_updNode_safe (finalMaxSafe_setInitialVelocity fv) f1
  | case3 nodes i hi node fv nodes1 hnext nodes2 next hapex ih =>
    rw [forwardWalk, dif_pos hi, if_pos hnext, if_neg hapex]
    have f1 : FinalBound nodes1 := finalBound_updNode_setFinal h (min_le_right _ _)
    exact ih (finalBound_updNode_safe (finalMaxSafe_setInitialVelocity fv) f1)
  | case4 nodes i hi hnext =>
    rw [forwardWalk, dif_pos hi, if_neg hnext]
    exact finalBound_updNode_setFinal h (min_le_right _ _)
  | case5 nodes i hi =>
    rw [forwardWalk, dif_neg hi]
    exact h

theorem finalBound_backwardWalk (vm : VehicleModel) (nodes : List SolutionNode) (i : ℕ)
    (h : FinalBound nodes) : FinalBound (backwardWalk vm nodes i) := by
  induction nodes, i using backwardWalk.induct vm with
  | case1 nodes => exact h
  | case2 nodes j node prev hstop =>
    rw [backwardWalk, if_pos hstop]
    exact h
  | case3 nodes j node prev hstop nodes1 tl iv nodes2 nodes3 ih =>
    rw [backwardWalk, if_neg hstop]
    have f1 : FinalBound nodes1 := by
      by_cases hap : prev.apex = true
      · simp only [nodes1, hap, if_true]
        exact finalBound_updNode_safe finalMaxSafe_removeApex h
      · simp only [nodes1, hap, if_false]
        exact h
    have f2 : FinalBound nodes2 := finalBound_updNode_safe (finalMaxSafe_setInitialVelocity iv) f1
    have hmax : (getN nodes2 j).maximumVelocity = prev.maximumVelocity := by
      have e2 : getN nodes2 j = getN nodes1 j := getN_updNode_ne nodes1 (j + 1) j _ (by omega)
      have e1 : (getN nodes1 j).maximumVelocity = prev.maximumVelocity := by
        by_cases hap : prev.apex = true
        · simp only [nodes1, hap, if_true]
          rw [getN_updNode]
          split
          · rfl
          · rfl
        · simp [nodes1, hap]
      rw [e2, e1]
    have hiv : iv ≤ (getN nodes2 j).maximumVelocity := by
      rw [hmax]
      exact le_trans (min_le_right _ _) (h j)
    exact ih (finalBound_updNode_setFinal f2 hiv)

theorem finalBound_forwardPhase (vm : VehicleModel) (nodes : List SolutionNode)
    (worklist : List ℕ) (h : FinalBound nodes) :
    FinalBound (forwardPhase vm nodes worklist) := by
  induction worklist generalizing nodes with
  | nil => exact h
  | cons a rest ih =>
    rw [forwardPhase]
    split
    · refine ih _ ?_
      refine finalBound_forwardWalk vm _ a ?_
      exact finalBound_updNode_safe (finalMaxSafe_setInitialVelocity _) h
    · exact ih nodes h

theorem finalBound_backwardPhase (vm : VehicleModel) (nodes : List SolutionNode)
    (worklist : List ℕ) (h : FinalBound nodes) :
    FinalBound (backwardPhase vm nodes worklist) := by
  induction worklist generalizing nodes with
  | nil => exact h
  | cons a rest ih =>
    rw [backwardPhase]
    split
    · exact ih _ (finalBound_backwardWalk vm nodes a h)
    · exact ih nodes h

theorem finalBound_evaluate (vm : VehicleModel) (nodes : List SolutionNode)
    (h : FinalBound nodes) : FinalBound (evaluateFullVehicleStateNodes vm nodes) :=
  finalBound_map_safe (fun _ => ⟨rfl, rfl⟩) h

theorem finalBound_recalcLoop (vm : VehicleModel) (nodes : List SolutionNode) (i : ℕ)
    (h : FinalBound nodes) : FinalBound (recalcLoop vm nodes i) := by
  induction nodes, i using recalcLoop.induct vm with
  | case1 nodes i hi prev soc ih =>
    rw [recalcLoop, dif_pos hi]
    exact ih (finalBound_updNode_safe (fun n => ⟨rfl, rfl⟩) h)
  | case2 nodes i hi =>
    rw [recalcLoop, dif_neg hi]
    exact h

/-- After phase 1 the final-velocity bound holds, provided the incoming
final velocities are at most `0` and the lateral model is nonnegative. -/
theorem finalBound_after_phase1 (vm : VehicleModel) (nodes : List SolutionNode)
    (hlat : ∀ sv tn, 0 ≤ vm.lateralVehicleModel sv tn)
    (hfin : ∀ j, (getN nodes j).finalVelocity ≤ 0) :
    FinalBound (solveMaximumVelocitiesNodes vm nodes) := by
  intro j
  by_cases hj : j < nodes.length
  · rw [solveMaximumVelocitiesNodes, getN_map _ nodes j hj]
    exact le_trans (hfin j) (hlat _ _)
  · rw [getN_of_length_le _ j (by simpa [solveMaximumVelocitiesNodes] using not_lt.mp hj)]
    exact le_rfl

theorem finalBound_setApexes (nodes : List SolutionNode) (apexes : Finset ℕ)
    (h : FinalBound nodes) : FinalBound (setApexesNodes nodes apexes) := by
  intro j
  rw [setApexesNodes, getN_setApexesGo]
  split
  · split
    · exact h j
    · exact h j
  · exact le_rfl

theorem getN_map_of {α : Type} [Inhabited α] (g : α → SolutionNode) (l : List α) (j : ℕ)
    (h : j < l.length) : getN (l.map g) j = g (l.getD j default) := by
  have hj : l[j]? = some l[j] := List.getElem?_eq_getElem h
  simp [getN, List.getD_eq_getElem?_getD, List.getElem?_map, hj]

/-- Final velocities of a freshly created solution, after the anchoring
step, are all `0`. -/
theorem fresh_final_zero (mesh : Mesh) (vm : VehicleModel) (j : ℕ) :
    (getN (updNode (createNewSolution mesh vm).nodes 0
      (fun n => n.anchorInitialVelocity 0)) j).finalVelocity = 0 := by
  rw [getN_updNode]
  have hfresh : ∀ k, (getN (createNewSolution mesh vm).nodes k).finalVelocity = 0 := by
    intro k
    by_cases hk : k < (createNewSolution mesh vm).nodes.length
    · have hk2 : k < mesh.nodes.length := by
        simpa [createNewSolution] using hk
      have : (createNewSolution mesh vm).nodes =
          mesh.nodes.map (fun tn => { trackNode := tn }) := rfl
      rw [this, getN_map_of _ _ k hk2]
    · rw [getN_of_length_le _ k (not_lt.mp hk)]
      rfl
  split
  · rename_i hcase
    obtain ⟨he, _⟩ := hcase
    rw [((finalMaxSafe_anchorInitialVelocity 0) (getN (createNewSolution mesh vm).nodes 0)).1,
      hfresh 0]
  · exact hfresh j

/-- C1 (amended): after a complete QSS run on a freshly created solution
for any mesh, with a nonnegative lateral envelope, every node satisfies
`final_velocity ≤ max_velocity + 1e-6`. The corresponding bound on the
initial velocities fails (see the counterexample): backward propagation
caps the initial velocity only by the neighbouring final velocity, not by
the maximum velocity of the node itself. -/
theorem c1_final_velocity_bounded (vm : VehicleModel) (mesh : Mesh)
    (hlat : ∀ sv tn, 0 ≤ vm.lateralVehicleModel sv tn) (i : ℕ) :
    (getN (qssSolve (createNewSolution mesh vm)).nodes i).finalVelocity ≤
      (getN (qssSolve (createNewSolution mesh vm)).nodes i).maximumVelocity + 1 / 1000000 := by
  have hfin : ∀ j, (getN (updNode (createNewSolution mesh vm).nodes 0
      (fun n => n.anchorInitialVelocity 0)) j).finalVelocity ≤ 0 :=
    fun j => le_of_eq (fresh_final_zero mesh vm j)
  let n0 := updNode (createNewSolution mesh vm).nodes 0 (fun n => n.anchorInitialVelocity 0)
  let m1 := solveMaximumVelocitiesNodes vm n0
  let m2 := setApexesNodes m1 (findApexes m1)
  let m3 := forwardPhase vm m2 (getSortedApexIndices m2)
  let m4 := backwardPhase vm m3 (getSortedApexIndices m3)
  let m5 := evaluateFullVehicleStateNodes vm m4
  have fb1 : FinalBound m1 := finalBound_after_phase1 vm n0 hlat hfin
  have fb2 : FinalBound m2 := finalBound_setApexes m1 (findApexes m1) fb1
  have fb3 : FinalBound m3 := finalBound_forwardPhase vm m2 (getSortedApexIndices m2) fb2
  have fb4 : FinalBound m4 := finalBound_backwardPhase vm m3 (getSortedApexIndices m3) fb3
  have fb5 : FinalBound m5 := finalBound_evaluate vm m4 fb4
  have fb6 : FinalBound (recalcLoop vm m5 1) := finalBound_recalcLoop vm m5 1 fb5
  have hfb : FinalBound (qssSolve (createNewSolution mesh vm)).nodes := fb6
  have hi := hfb i
  linarith

/-- A unit-length flat track node of the given curvature. -/
noncomputable def cTrackNode (c : ℝ) : TrackNode :=
  { position := 0, length := 1, curvature := c, elevation := 0 }

/-- A vehicle model with an everywhere nonnegative lateral envelope and
always failing longitudinal computations. -/
noncomputable def c1WitnessVM : VehicleModel :=
  { lateralVehicleModel := fun _ tn => |tn.curvature|
    calculateAcceleration := fun _ _ _ => none
    calculateDeceleration := fun _ _ _ => none
    resolveVehicleState := fun _ _ _ => {}
    updateStateOfCharge := fun soc _ => soc }

/-- Witness for the amended C1 at a concrete one-node mesh. -/
theorem c1_final_velocity_bounded_witness :
    (getN (qssSolve (createNewSolution ⟨[cTrackNode 0], false⟩ c1WitnessVM)).nodes 0
      ).finalVelocity ≤
    (getN (qssSolve (createNewSolution ⟨[cTrackNode 0], false⟩ c1WitnessVM)).nodes 0
      ).maximumVelocity + 1 / 1000000 :=
  c1_final_velocity_bounded c1WitnessVM ⟨[cTrackNode 0], false⟩
    (fun _ tn => abs_nonneg tn.curvature) 0

/-- A solution node record over a unit-length node of curvature `c`, with
the given maximum, initial and final velocities, apex flag, and
initial-anchor flag; the remaining fields are the defaults. -/
noncomputable def mkNode (c maxV iniV finV : ℝ) (ap anchI : Bool) : SolutionNode :=
  { trackNode := cTrackNode c, maximumVelocity := maxV, apex := ap,
    initialVelocity := iniV, finalVelocity := finV, initialAnchored := anchI }

/-- The vehicle model of the C1 counterexample: the lateral envelope reads
the curvature field, the acceleration is `9/2` from standstill and `0`
otherwise, and the deceleration is a constant `3/2`. -/
noncomputable def c1VM : VehicleModel :=
  { lateralVehicleModel := fun _ tn => tn.curvature
    calculateAcceleration := fun _ _ v => some (if v = 0 then 9 / 2 else 0)
    calculateDeceleration := fun _ _ _ => some (3 / 2)
    resolveVehicleState := fun _ _ _ => {}
    updateStateOfCharge := fun soc _ => soc }

/-- A three-node mesh whose lateral envelope under `c1VM` is `[5, 1, 5]`:
a sharp apex between two fast corners. -/
noncomputable def c1Mesh : Mesh :=
  { nodes := [cTrackNode 5, cTrackNode 1, cTrackNode 5], closed := false }

/-- If every single step of the phase 6 loop leaves the node list
unchanged, the whole loop does. -/
theorem recalcLoop_id (vm : VehicleModel) (nodes : List SolutionNode)
    (hid : ∀ i, i < nodes.length → (updNode nodes i (fun n =>
      { n with stateVariables := ({ stateOfCharge :=
          (vm.updateStateOfCharge (getN nodes (i - 1)).stateVariables.stateOfCharge
            (getN nodes (i - 1)).energyUsed) } : StateVariables) })) = nodes) :
    ∀ i, recalcLoop vm nodes i = nodes := by
  have hk : ∀ k i, nodes.length - i ≤ k → recalcLoop vm nodes i = nodes := by
    intro k
    induction k with
    | zero =>
      intro i hle
      rw [recalcLoop, dif_neg (by omega)]
    | succ k ih =>
      intro i hle
      by_cases h : i < nodes.length
      · rw [recalcLoop]
        simp only [dif_pos h]
        rw [hid i h]
        exact ih (i + 1) (by omega)
      · rw [recalcLoop, dif_neg h]
  exact fun i => hk (nodes.length - i) i le_rfl

theorem c1_sqrt_nine : Real.sqrt 9 = 3 := by
  rw [show (9 : ℝ) = 3 ^ 2 by norm_num, Real.sqrt_sq (by norm_num : (0:ℝ) ≤ 3)]

theorem c1_sqrt_four : Real.sqrt 4 = 2 := by
  rw [show (4 : ℝ) = 2 ^ 2 by norm_num, Real.sqrt_sq (by norm_num : (0:ℝ) ≤ 2)]

/-- C1 counterexample: on the mesh `c1Mesh` with model `c1VM` the complete
QSS run leaves node `1` with `initial_velocity = 2` while its Phase-1
envelope is `max_velocity = 1`, so the claimed bound
`initial_velocity ≤ max_velocity + 1e-6` is violated. Forward propagation
from apex `0` pushes `initial_velocity[1] = 3`, and backward propagation
lowers it only to the braking-limited `2`, which still exceeds the
envelope. -/
theorem c1_counterexample :
    (getN (qssSolve (createNewSolution c1Mesh c1VM)).nodes 1).maximumVelocity + 1 / 1000000 <
      (getN (qssSolve (createNewSolution c1Mesh c1VM)).nodes 1).initialVelocity := by
  have e0 : updNode (createNewSolution c1Mesh c1VM).nodes 0
      (fun n => n.anchorInitialVelocity 0) =
      [mkNode 5 0 0 0 false true, mkNode 1 0 0 0 false false, mkNode 5 0 0 0 false false] := by
    simp [createNewSolution, c1Mesh, updNode, getN, SolutionNode.anchorInitialVelocity,
      SolutionNode.setInitialVelocity, mkNode, cTrackNode]
  have e1 : solveMaximumVelocitiesNodes c1VM
      [mkNode 5 0 0 0 false true, mkNode 1 0 0 0 false false, mkNode 5 0 0 0 false false] =
      [mkNode 5 5 0 0 false true, mkNode 1 1 0 0 false false, mkNode 5 5 0 0 false false] := by
    simp [solveMaximumVelocitiesNodes, c1VM, mkNode, cTrackNode]
  have hpe : plateauEnd [(-5 : ℝ), -1, -5] (-1) 2 = 2 := by
    rw [plateauEnd, dif_neg]
    norm_num
  have hlm : localMaxima [(-5 : ℝ), -1, -5] 1 = [1] := by
    rw [localMaxima, dif_pos (by norm_num)]
    rw [if_pos (by norm_num [List.getD])]
    rw [show ([(-5 : ℝ), -1, -5].getD 1 0) = (-1 : ℝ) by norm_num [List.getD]]
    rw [hpe]
    rw [if_pos (by norm_num [List.getD])]
    rw [localMaxima, dif_neg (by norm_num)]
  have e2 : findApexes
      [mkNode 5 5 0 0 false true, mkNode 1 1 0 0 false false, mkNode 5 5 0 0 false false] =
      ({0, 1, 2} : Finset ℕ) := by
    rw [findApexes]
    rw [show ([mkNode 5 5 0 0 false true, mkNode 1 1 0 0 false false,
      mkNode 5 5 0 0 false false].map (fun n => -n.maximumVelocity)) =
        [(-5 : ℝ), -1, -5] by simp [mkNode]]
    rw [hlm]
    decide
  have e3 : setApexesNodes
      [mkNode 5 5 0 0 false true, mkNode 1 1 0 0 false false, mkNode 5 5 0 0 false false]
      ({0, 1, 2} : Finset ℕ) =
      [mkNode 5 5 0 0 true true, mkNode 1 1 0 0 true false, mkNode 5 5 0 0 true false] := by
    simp +decide [setApexesNodes, setApexesGo, SolutionNode.addApex, mkNode]
  have e4 : getSortedApexIndices
      [mkNode 5 5 0 0 true true, mkNode 1 1 0 0 true false, mkNode 5 5 0 0 true false] =
      [1, 0, 2] := by
    rw [getSortedApexIndices]
    norm_num [getN, mkNode, List.range_succ, List.insertionSort, List.orderedInsert, apexOrder]
  have w0 : propagateForwardNodes c1VM
      [mkNode 5 5 0 0 true true, mkNode 1 1 0 0 true false, mkNode 5 5 0 0 true false] 1 =
      forwardWalk c1VM
        [mkNode 5 5 0 0 true true, mkNode 1 1 1 0 true false, mkNode 5 5 0 0 true false] 1 := by
    rw [propagateForwardNodes]
    norm_num [getN, updNode, mkNode, SolutionNode.setInitialVelocity]
  have w1 : forwardWalk c1VM
      [mkNode 5 5 0 0 true true, mkNode 1 1 1 0 true false, mkNode 5 5 0 0 true false] 1 =
      forwardWalk c1VM
        [mkNode 5 5 0 0 true true, mkNode 1 1 1 1 true false, mkNode 5 5 1 0 false false] 2 := by
    rw [forwardWalk]
    norm_num [getN, updNode, mkNode, cTrackNode, SolutionNode.setFinalVelocity,
      SolutionNode.setInitialVelocity, SolutionNode.removeApex, tractionLimitVelocity,
      calculateNextVelocity, c1VM, min_def]
  have w2 : forwardWalk c1VM
      [mkNode 5 5 0 0 true true, mkNode 1 1 1 1 true false, mkNode 5 5 1 0 false false] 2 =
      [mkNode 5 5 0 0 true true, mkNode 1 1 1 1 true false, mkNode 5 5 1 1 false false] := by
    rw [forwardWalk]
    norm_num [getN, updNode, mkNode, cTrackNode, SolutionNode.setFinalVelocity,
      SolutionNode.setInitialVelocity, tractionLimitVelocity, calculateNextVelocity, c1VM,
      min_def]
  have w3 : propagateForwardNodes c1VM
      [mkNode 5 5 0 0 true true, mkNode 1 1 1 1 true false, mkNode 5 5 1 1 false false] 0 =
      forwardWalk c1VM
        [mkNode 5 5 0 0 true true, mkNode 1 1 1 1 true false, mkNode 5 5 1 1 false false] 0 := by
    rw [propagateForwardNodes]
    norm_num [getN, updNode, mkNode, SolutionNode.setInitialVelocity]
  have w4 : forwardWalk c1VM
      [mkNode 5 5 0 0 true true, mkNode 1 1 1 1 true false, mkNode 5 5 1 1 false false] 0 =
      [mkNode 5 5 0 3 true true, mkNode 1 1 3 1 true false, mkNode 5 5 1 1 false false] := by
    rw [forwardWalk]
    norm_num [getN, updNode, mkNode, cTrackNode, SolutionNode.setFinalVelocity,
      SolutionNode.setInitialVelocity, tractionLimitVelocity, calculateNextVelocity, c1VM,
      min_def, c1_sqrt_nine]
  have e5 : forwardPhase c1VM
      [mkNode 5 5 0 0 true true, mkNode 1 1 0 0 true false, mkNode 5 5 0 0 true false]
      [1, 0, 2] =
      [mkNode 5 5 0 3 true true, mkNode 1 1 3 1 true false, mkNode 5 5 1 1 false false] := by
    rw [forwardPhase, if_pos (show (getN
      [mkNode 5 5 0 0 true true, mkNode 1 1 0 0 true false, mkNode 5 5 0 0 true false]
      1).apex = true by norm_num [getN, mkNode])]
    rw [w0, w1, w2]
    rw [forwardPhase, if_pos (show (getN
      [mkNode 5 5 0 0 true true, mkNode 1 1 1 1 true false, mkNode 5 5 1 1 false false]
      0).apex = true by norm_num [getN, mkNode])]
    rw [w3, w4]
    rw [forwardPhase, if_neg (show ¬ (getN
      [mkNode 5 5 0 3 true true, mkNode 1 1 3 1 true false, mkNode 5 5 1 1 false false]
      2).apex = true by norm_num [getN, mkNode])]
    rw [forwardPhase]
  have e6 : getSortedApexIndices
      [mkNode 5 5 0 3 true true, mkNode 1 1 3 1 true false, mkNode 5 5 1 1 false false] =
      [1, 0] := by
    rw [getSortedApexIndices]
    norm_num [getN, mkNode, List.range_succ, List.insertionSort, List.orderedInsert, apexOrder]
  have b1 : backwardWalk c1VM
      [mkNode 5 5 0 3 true true, mkNode 1 1 3 1 true false, mkNode 5 5 1 1 false false] 1 =
      [mkNode 5 5 0 2 false true, mkNode 1 1 2 1 true false, mkNode 5 5 1 1 false false] := by
    rw [backwardWalk]
    rw [backwardWalk]
    norm_num [getN, updNode, mkNode, cTrackNode, SolutionNode.setFinalVelocity,
      SolutionNode.setInitialVelocity, SolutionNode.removeApex, tractionLimitVelocityBraking,
      calculatePreviousVelocity, c1VM, min_def, c1_sqrt_four]
  have e7 : backwardPhase c1VM
      [mkNode 5 5 0 3 true true, mkNode 1 1 3 1 true false, mkNode 5 5 1 1 false false]
      [1, 0] =
      [mkNode 5 5 0 2 false true, mkNode 1 1 2 1 true false, mkNode 5 5 1 1 false false] := by
    rw [backwardPhase, if_pos (show (getN
      [mkNode 5 5 0 3 true true, mkNode 1 1 3 1 true false, mkNode 5 5 1 1 false false]
      1).apex = true by norm_num [getN, mkNode])]
    rw [show propagateBackwardNodes c1VM
      [mkNode 5 5 0 3 true true, mkNode 1 1 3 1 true false, mkNode 5 5 1 1 false false] 1 =
      backwardWalk c1VM
      [mkNode 5 5 0 3 true true, mkNode 1 1 3 1 true false, mkNode 5 5 1 1 false false] 1
      from rfl]
    rw [b1]
    rw [backwardPhase, if_neg (show ¬ (getN
      [mkNode 5 5 0 2 false true, mkNode 1 1 2 1 true false, mkNode 5 5 1 1 false false]
      0).apex = true by norm_num [getN, mkNode])]
    rw [backwardPhase]
  have e8 : evaluateFullVehicleStateNodes c1VM
      [mkNode 5 5 0 2 false true, mkNode 1 1 2 1 true false, mkNode 5 5 1 1 false false] =
      [mkNode 5 5 0 2 false true, mkNode 1 1 2 1 true false, mkNode 5 5 1 1 false false] := rfl
  have e9 : recalculateStateVariablesNodes c1VM
      [mkNode 5 5 0 2 false true, mkNode 1 1 2 1 true false, mkNode 5 5 1 1 false false] =
      [mkNode 5 5 0 2 false true, mkNode 1 1 2 1 true false, mkNode 5 5 1 1 false false] := by
    rw [recalculateStateVariablesNodes]
    refine recalcLoop_id c1VM _ ?_ 1
    intro i hi
    have hi3 : i < 3 := by simpa using hi
    interval_cases i <;> norm_num [updNode, getN, mkNode, c1VM]
  have final : (qssSolve (createNewSolution c1Mesh c1VM)).nodes =
      [mkNode 5 5 0 2 false true, mkNode 1 1 2 1 true false, mkNode 5 5 1 1 false false] := by
    show qssPhases c1VM (updNode (createNewSolution c1Mesh c1VM).nodes 0
      (fun n => n.anchorInitialVelocity 0)) = _
    rw [e0]
    show recalculateStateVariablesNodes c1VM (evaluateFullVehicleStateNodes c1VM _) = _
    rw [e1, e2, e3, e4, e5, e6, e7, e8, e9]
  rw [final]
  norm_num [getN, mkNode]

/-! ### Claim C3 — apex identification and the sorted worklist -/

/-- Without an adjacent tie the plateau scan stops immediately. -/
theorem plateauEnd_no_tie (x : List ℝ)
    (hne : ∀ m, m + 1 < x.length → x.getD m 0 ≠ x.getD (m + 1) 0) (i : ℕ) :
    plateauEnd x (x.getD i 0) (i + 1) = i + 1 := by
  rw [plateauEnd, dif_neg]
  rintro ⟨hlt, heq⟩
  exact hne i (by omega) heq.symm

/-- Characterisation of the scipy peak scan when no two adjacent values are
equal: starting the scan at `i0`, the peaks found are exactly the indices
`m ≥ i0` that are interior strict local maxima. -/
theorem localMaxima_mem (x : List ℝ)
    (hne : ∀ m, m + 1 < x.length → x.getD m 0 ≠ x.getD (m + 1) 0) :
    ∀ (i0 m : ℕ), m ∈ localMaxima x i0 ↔
      (i0 ≤ m ∧ m + 1 < x.length ∧ x.getD (m - 1) 0 < x.getD m 0 ∧
        x.getD (m + 1) 0 < x.getD m 0) := by
  have hmain : ∀ (k i0 : ℕ), x.length - i0 ≤ k → ∀ m, m ∈ localMaxima x i0 ↔
      (i0 ≤ m ∧ m + 1 < x.length ∧ x.getD (m - 1) 0 < x.getD m 0 ∧
        x.getD (m + 1) 0 < x.getD m 0) := by
    intro k
    induction k with
    | zero =>
      intro i0 hk m
      rw [localMaxima, dif_neg (by omega)]
      simp only [List.not_mem_nil, false_iff]
      rintro ⟨h1, h2, _⟩
      omega
    | succ k ih =>
      intro i0 hk m
      by_cases hcond : i0 < x.length - 1
      · rw [localMaxima]
        simp only [dif_pos hcond]
        rw [plateauEnd_no_tie x hne i0]
        by_cases hrise : x.getD (i0 - 1) 0 < x.getD i0 0
        · simp only [if_pos hrise]
          by_cases hfall : x.getD (i0 + 1) 0 < x.getD i0 0
          · simp only [if_pos hfall]
            have hmid : (i0 + (i0 + 1 - 1)) / 2 = i0 := by omega
            rw [hmid, List.mem_cons, ih (i0 + 2) (by omega) m]
            constructor
            · rintro (rfl | ⟨h1, h2, h3, h4⟩)
              · exact ⟨le_rfl, by omega, hrise, hfall⟩
              · exact ⟨by omega, h2, h3, h4⟩
            · rintro ⟨h1, h2, h3, h4⟩
              by_cases hm : m = i0
              · exact Or.inl hm
              · refine Or.inr ⟨?_, h2, h3, h4⟩
                by_cases hm1 : m = i0 + 1
                · subst hm1
                  simp only [Nat.add_sub_cancel] at h3
                  exact absurd h3 (not_lt.mpr (le_of_lt hfall))
                · omega
          · simp only [if_neg hfall]
            rw [ih (i0 + 1) (by omega) m]
            constructor
            · rintro ⟨h1, h2, h3, h4⟩
              exact ⟨by omega, h2, h3, h4⟩
            · rintro ⟨h1, h2, h3, h4⟩
              refine ⟨?_, h2, h3, h4⟩
              by_cases hm : m = i0
              · subst hm
                exact absurd h4 hfall
              · omega
        · simp only [if_neg hrise]
          rw [ih (i0 + 1) (by omega) m]
          constructor
          · rintro ⟨h1, h2, h3, h4⟩
            exact ⟨by omega, h2, h3, h4⟩
          · rintro ⟨h1, h2, h3, h4⟩
            refine ⟨?_, h2, h3, h4⟩
            by_cases hm : m = i0
            · subst hm
              exact absurd h3 hrise
            · omega
      · rw [localMaxima, dif_neg hcond]
        simp only [List.not_mem_nil, false_iff]
        rintro ⟨h1, h2, _⟩
        omega
  exact fun i0 m => hmain (x.length - i0) i0 le_rfl m

instance : IsTrans (ℝ × ℕ) apexOrder where
  trans a b c hab hbc := by
    rcases hab with h1 | ⟨e1, l1⟩ <;> rcases hbc with h2 | ⟨e2, l2⟩
    · exact Or.inl (lt_trans h1 h2)
    · exact Or.inl (by rw [← e2]; exact h1)
    · exact Or.inl (by rw [e1]; exact h2)
    · exact Or.inr ⟨e1.trans e2, le_trans l1 l2⟩

instance : IsTotal (ℝ × ℕ) apexOrder where
  total a b := by
    rcases lt_trichotomy a.1 b.1 with h | h | h
    · exact Or.inl (Or.inl h)
    · rcases le_total a.2 b.2 with h2 | h2
      · exact Or.inl (Or.inr ⟨h, h2⟩)
      · exact Or.inr (Or.inr ⟨h.symm, h2⟩)
    · exact Or.inr (Or.inl h)

theorem getD_map_negMax (nodes : List SolutionNode) (k : ℕ) (h : k < nodes.length) :
    (nodes.map (fun n => -n.maximumVelocity)).getD k 0 = -(getN nodes k).maximumVelocity := by
  have hk : nodes[k]? = some nodes[k] := List.getElem?_eq_getElem h
  simp [getN, List.getD_eq_getElem?_getD, List.getElem?_map, hk]

/-- C3 (amended): when no two adjacent nodes share the same maximum
velocity, the apexes identified by `find_apexes` are exactly the strict
local minima of the envelope together with the first and last index (with
adjacent ties, the scipy peak finder instead reports plateau midpoints —
see the counterexample); and the worklist of `get_sorted_apex_indices` is
the list of currently flagged apex indices sorted by ascending maximum
velocity with ties broken by ascending index. -/
theorem c3_apexes_and_worklist (nodes : List SolutionNode) :
    ((∀ m, m + 1 < nodes.length →
        (getN nodes m).maximumVelocity ≠ (getN nodes (m + 1)).maximumVelocity) →
      ∀ i, (i ∈ findApexes nodes ↔ i = 0 ∨ i = nodes.length - 1 ∨
        (0 < i ∧ i + 1 < nodes.length ∧
          (getN nodes i).maximumVelocity < (getN nodes (i - 1)).maximumVelocity ∧
          (getN nodes i).maximumVelocity < (getN nodes (i + 1)).maximumVelocity))) ∧
    List.Pairwise
      (fun a b => (getN nodes a).maximumVelocity < (getN nodes b).maximumVelocity ∨
        ((getN nodes a).maximumVelocity = (getN nodes b).maximumVelocity ∧ a ≤ b))
      (getSortedApexIndices nodes) ∧
    (getSortedApexIndices nodes).Perm
      ((List.range nodes.length).filter (fun i => (getN nodes i).apex)) := by
  refine ⟨fun hne i => ?_, ?_, ?_⟩
  · have hlen : (nodes.map (fun n => -n.maximumVelocity)).length = nodes.length :=
      List.length_map _ _
    have hnex : ∀ m, m + 1 < (nodes.map (fun n => -n.maximumVelocity)).length →
        (nodes.map (fun n => -n.maximumVelocity)).getD m 0 ≠
          (nodes.map (fun n => -n.maximumVelocity)).getD (m + 1) 0 := by
      intro m hm heq
      rw [hlen] at hm
      rw [getD_map_negMax nodes m (by omega), getD_map_negMax nodes (m + 1) hm] at heq
      exact hne m hm (neg_injective heq)
    rw [findApexes]
    simp only [Finset.mem_union, List.mem_toFinset, Finset.mem_insert, Finset.mem_singleton]
    rw [localMaxima_mem _ hnex 1 i]
    constructor
    · rintro (⟨h1, h2, h3, h4⟩ | h0 | hlast)
      · rw [hlen] at h2
        rw [getD_map_negMax nodes (i - 1) (by omega), getD_map_negMax nodes i (by omega)]
          at h3
        rw [getD_map_negMax nodes (i + 1) h2, getD_map_negMax nodes i (by omega)] at h4
        exact Or.inr (Or.inr ⟨by omega, h2, neg_lt_neg_iff.mp h3, neg_lt_neg_iff.mp h4⟩)
      · exact Or.inl h0
      · exact Or.inr (Or.inl hlast)
    · rintro (h0 | hlast | ⟨h1, h2, h3, h4⟩)
      · exact Or.inr (Or.inl h0)
      · exact Or.inr (Or.inr hlast)
      · refine Or.inl ⟨by omega, by rw [hlen]; exact h2, ?_, ?_⟩
        · rw [getD_map_negMax nodes (i - 1) (by omega), getD_map_negMax nodes i (by omega)]
          exact neg_lt_neg_iff.mpr h3
        · rw [getD_map_negMax nodes (i + 1) h2, getD_map_negMax nodes i (by omega)]
          exact neg_lt_neg_iff.mpr h4
  · rw [getSortedApexIndices]
    rw [List.pairwise_map]
    have hs : List.Pairwise apexOrder (List.insertionSort apexOrder
        (((List.range nodes.length).filter (fun i => (getN nodes i).apex)).map
          (fun i => ((getN nodes i).maximumVelocity, i)))) :=
      List.sorted_insertionSort apexOrder _
    refine hs.imp_of_mem ?_
    intro a b ha hb hab
    have hmem : ∀ p : ℝ × ℕ, p ∈ List.insertionSort apexOrder
        (((List.range nodes.length).filter (fun i => (getN nodes i).apex)).map
          (fun i => ((getN nodes i).maximumVelocity, i))) →
        p.1 = (getN nodes p.2).maximumVelocity := by
      intro p hp
      rw [(List.perm_insertionSort apexOrder _).mem_iff, List.mem_map] at hp
      obtain ⟨i, _, rfl⟩ := hp
      rfl
    have ea := hmem a ha
    have eb := hmem b hb
    rcases hab with h | ⟨e, l⟩
    · exact Or.inl (by rw [← ea, ← eb]; exact h)
    · exact Or.inr ⟨by rw [← ea, ← eb]; exact e, l⟩
  · rw [getSortedApexIndices]
    have hp : (List.insertionSort apexOrder
        (((List.range nodes.length).filter (fun i => (getN nodes i).apex)).map
          (fun i => ((getN nodes i).maximumVelocity, i)))).map Prod.snd |>.Perm
        ((((List.range nodes.length).filter (fun i => (getN nodes i).apex)).map
          (fun i => ((getN nodes i).maximumVelocity, i))).map Prod.snd) :=
      (List.perm_insertionSort apexOrder _).map Prod.snd
    refine hp.trans ?_
    have hmm : ((((List.range nodes.length).filter (fun i => (getN nodes i).apex)).map
        (fun i => ((getN nodes i).maximumVelocity, i))).map Prod.snd) =
        ((List.range nodes.length).filter (fun i => (getN nodes i).apex)) := by
      rw [List.map_map]
      exact List.map_id _
    rw [hmm]

/-- The four-node envelope `[5, 1, 1, 5]` of the C3 counterexample: a
plateau of two equal minima. -/
noncomputable def c3Nodes : List SolutionNode :=
  [mkNode 0 5 0 0 false false, mkNode 0 1 0 0 false false, mkNode 0 1 0 0 false false,
    mkNode 0 5 0 0 false false]

/-- C3 counterexample: on the envelope `[5, 1, 1, 5]` the claim says the
apexes are exactly `{0, 3}` — index `1` ties with index `2`, so neither is
a strict local minimum — but `find_peaks` reports the plateau midpoint, so
`find_apexes` also contains index `1`. -/
theorem c3_counterexample :
    1 ∈ findApexes c3Nodes ∧ (1 : ℕ) ≠ 0 ∧ (1 : ℕ) ≠ c3Nodes.length - 1 ∧
    ¬((getN c3Nodes 1).maximumVelocity < (getN c3Nodes 0).maximumVelocity ∧
      (getN c3Nodes 1).maximumVelocity < (getN c3Nodes 2).maximumVelocity) := by
  have hpe2 : plateauEnd [(-5 : ℝ), -1, -1, -5] (-1) 2 = 3 := by
    rw [plateauEnd, dif_pos (by norm_num [List.getD])]
    rw [plateauEnd, dif_neg (by norm_num)]
  have hlm2 : localMaxima [(-5 : ℝ), -1, -1, -5] 1 = [1] := by
    rw [localMaxima, dif_pos (by norm_num)]
    rw [if_pos (by norm_num [List.getD])]
    rw [show ([(-5 : ℝ), -1, -1, -5].getD 1 0) = (-1 : ℝ) by norm_num [List.getD]]
    rw [hpe2]
    rw [if_pos (by norm_num [List.getD])]
    rw [localMaxima, dif_neg (by norm_num)]
  refine ⟨?_, by norm_num, by norm_num [c3Nodes], by norm_num [c3Nodes, getN, mkNode]⟩
  rw [findApexes]
  rw [show (c3Nodes.map (fun n => -n.maximumVelocity)) = [(-5 : ℝ), -1, -1, -5] by
    norm_num [c3Nodes, mkNode]]
  rw [hlm2]
  simp [c3Nodes]

/-- Witness for the amended C3: on the tie-free envelope `[5, 1, 5]` the
characterisation puts index `1` (the strict local minimum) among the
apexes. -/
theorem c3_apexes_and_worklist_witness :
    1 ∈ findApexes [mkNode 0 5 0 0 false false, mkNode 0 1 0 0 false false,
      mkNode 0 5 0 0 false false] :=
  ((c3_apexes_and_worklist _).1
    (by
      intro m hm
      have hm2 : m < 2 := by
        have := hm
        simp only [List.length_cons, List.length_nil] at this
        omega
      interval_cases m <;> norm_num [getN, mkNode]) 1).mpr
    (Or.inr (Or.inr (by norm_num [getN, mkNode])))

/-! ### Claim C2 — the backward-propagation step -/

theorem apex_setInitialVelocity (n : SolutionNode) (v : ℝ) :
    (n.setInitialVelocity v).apex = n.apex := by
  by_cases h : n.initialAnchored <;> simp [SolutionNode.setInitialVelocity, h]

theorem apex_setFinalVelocity (n : SolutionNode) (v : ℝ) :
    (n.setFinalVelocity v).apex = n.apex := by
  by_cases h : n.finalAnchored <;> simp [SolutionNode.setFinalVelocity, h]

/-- The backward walk never changes the apex flag of a node at or above its
current position: every apex clearing happens strictly below the walking
index. -/
theorem backwardWalk_apex_frozen (vm : VehicleModel) (nodes : List SolutionNode) (i : ℕ) :
    ∀ k, i ≤ k → (getN (backwardWalk vm nodes i) k).apex = (getN nodes k).apex := by
  induction nodes, i using backwardWalk.induct vm with
  | case1 nodes => intro k _; rfl
  | case2 nodes j node prev hstop =>
    intro k _
    rw [backwardWalk, if_pos hstop]
  | case3 nodes j node prev hstop nodes1 tl iv nodes2 nodes3 ih =>
    intro k hk
    rw [backwardWalk, if_neg hstop]
    rw [ih k (by omega)]
    have h3 : getN nodes3 k = (getN nodes2 k).setFinalVelocity iv ∨ getN nodes3 k = getN nodes2 k := by
      rw [getN_updNode]
      split
      · rename_i hc
        obtain ⟨rfl, _⟩ := hc
        exact Or.inl rfl
      · exact Or.inr rfl
    have h2apex : (getN nodes2 k).apex = (getN nodes1 k).apex := by
      rw [getN_updNode]
      split
      · rename_i hc
        obtain ⟨rfl, _⟩ := hc
        exact apex_setInitialVelocity _ iv
      · rfl
    have h1apex : (getN nodes1 k).apex = (getN nodes k).apex := by
      by_cases hap : prev.apex = true
      · simp only [nodes1, hap, if_true]
        rw [getN_updNode]
        split
        · rename_i hc
          obtain ⟨rfl, _⟩ := hc
          omega
        · rfl
      · simp [nodes1, hap]
    rcases h3 with h | h
    · rw [h, apex_setFinalVelocity, h2apex, h1apex]
    · rw [h, h2apex, h1apex]

/-- C2 (amended): the backward-propagation step from node `i = j + 1` stops
at the first node; it stops when the previous final velocity is strictly
below the current one (on equality it continues, unlike the claim); in the
non-stop case it first unconditionally clears the apex flag at `j` if set,
then writes `v_new = min(braking-limited velocity, final[j])` to
`initial[j+1]` and `final[j]`, and always continues the walk — in
particular the apex flag at `j` is false afterwards even when
`v_new = final[j]`. -/
theorem c2_backward_step (vm : VehicleModel) (nodes : List SolutionNode) (j : ℕ) :
    backwardWalk vm nodes 0 = nodes ∧
    ((getN nodes j).finalVelocity < (getN nodes (j + 1)).finalVelocity →
      backwardWalk vm nodes (j + 1) = nodes) ∧
    (¬ (getN nodes j).finalVelocity < (getN nodes (j + 1)).finalVelocity →
      backwardWalk vm nodes (j + 1) =
        backwardWalk vm
          (updNode (updNode
            (if (getN nodes j).apex then updNode nodes j SolutionNode.removeApex else nodes)
            (j + 1) (fun n => n.setInitialVelocity
              (min (tractionLimitVelocityBraking vm (getN nodes (j + 1)))
                (getN nodes j).finalVelocity)))
            j (fun n => n.setFinalVelocity
              (min (tractionLimitVelocityBraking vm (getN nodes (j + 1)))
                (getN nodes j).finalVelocity)))
          j) ∧
    (¬ (getN nodes j).finalVelocity < (getN nodes (j + 1)).finalVelocity →
      (getN (backwardWalk vm nodes (j + 1)) j).apex = false) := by
  refine ⟨by rw [backwardWalk], fun h => by rw [backwardWalk, if_pos h], fun h => ?_,
    fun h => ?_⟩
  · rw [backwardWalk, if_neg h]
  · rw [backwardWalk, if_neg h]
    rw [backwardWalk_apex_frozen vm _ j j le_rfl]
    have hlen1 : (if (getN nodes j).apex then updNode nodes j SolutionNode.removeApex
        else nodes).length = nodes.length := by
      by_cases hap : (getN nodes j).apex = true
      · rw [if_pos hap, length_updNode]
      · rw [if_neg hap]
    by_cases hlen : j < nodes.length
    · rw [getN_updNode_same _ j _ (by rw [length_updNode, hlen1]; exact hlen)]
      rw [apex_setFinalVelocity]
      rw [getN_updNode_ne _ (j + 1) j _ (by omega)]
      by_cases hap : (getN nodes j).apex = true
      · rw [if_pos hap, getN_updNode_same nodes j _ hlen]
        rfl
      · rw [if_neg hap]
        simpa using hap
    · rw [getN_of_length_le _ j
        (by rw [length_updNode, length_updNode, hlen1]; omega)]
      rfl

/-- A vehicle model whose deceleration is always `0`. -/
noncomputable def c2VM : VehicleModel :=
  { lateralVehicleModel := fun _ _ => 0
    calculateAcceleration := fun _ _ _ => none
    calculateDeceleration := fun _ _ _ => some 0
    resolveVehicleState := fun _ _ _ => {}
    updateStateOfCharge := fun soc _ => soc }

/-- C2 counterexample: on two nodes with equal final velocities `1` and the
apex flag set at node `0`, the claim predicts that the backward walk from
node `1` stops (since `final[0] ≤ final[1]`) and leaves the apex flag
alone; the code continues — the stop test is strict — and clears the apex
flag at node `0` unconditionally before computing `v_new`, even though
`v_new = final[0]` here. -/
theorem c2_counterexample :
    (getN [mkNode 0 0 0 1 true false, mkNode 0 0 0 1 false false] 0).finalVelocity ≤
      (getN [mkNode 0 0 0 1 true false, mkNode 0 0 0 1 false false] 1).finalVelocity ∧
    (getN [mkNode 0 0 0 1 true false, mkNode 0 0 0 1 false false] 0).apex = true ∧
    (getN (backwardWalk c2VM [mkNode 0 0 0 1 true false, mkNode 0 0 0 1 false false] 1)
      0).apex = false := by
  refine ⟨by norm_num [getN, mkNode], by norm_num [getN, mkNode], ?_⟩
  rw [backwardWalk]
  rw [backwardWalk]
  norm_num [getN, updNode, mkNode, cTrackNode, SolutionNode.setFinalVelocity,
    SolutionNode.setInitialVelocity, SolutionNode.removeApex, tractionLimitVelocityBraking,
    calculatePreviousVelocity, c2VM, min_def]

/-- Witness for the amended C2 at the concrete two-node solution of the
counterexample: the non-stop branch applies (the final velocities are
equal) and the apex flag at node `0` is cleared. -/
theorem c2_backward_step_witness :
    (getN (backwardWalk c2VM [mkNode 0 0 0 1 true false, mkNode 0 0 0 1 false false] 1)
      0).apex = false :=
  (c2_backward_step c2VM [mkNode 0 0 0 1 true false, mkNode 0 0 0 1 false false] 0).2.2.2
    (by norm_num [getN, mkNode])

/-- C4: every QSS run anchors the first initial velocity at `0` before the
phases begin (given that the incoming solution was not already anchored at
a different value, which never happens in the program: fresh solutions are
unanchored and solver outputs are anchored at `0`); `set_initial_velocity`
on an anchored node leaves the stored velocity unchanged; and the returned
solution still has the first initial velocity `0` and anchored — in
particular forward propagation from apex `0` cannot overwrite it. -/
theorem c4_first_node_anchor (s : Solution) (hne : s.nodes ≠ [])
    (h0 : (getN s.nodes 0).initialAnchored = false ∨ (getN s.nodes 0).initialVelocity = 0) :
    (∀ (n : SolutionNode) (v : ℝ), n.initialAnchored = true →
      (n.setInitialVelocity v).initialVelocity = n.initialVelocity) ∧
    (getN (qssSolve s).nodes 0).initialVelocity = 0 ∧
    (getN (qssSolve s).nodes 0).initialAnchored = true := by
  have hlen : 0 < s.nodes.length := List.length_pos.mpr hne
  refine ⟨fun n v h => by simp [SolutionNode.setInitialVelocity, h], ?_⟩
  have hg : getN (updNode s.nodes 0 (fun n => n.anchorInitialVelocity 0)) 0 =
      (getN s.nodes 0).anchorInitialVelocity 0 :=
    getN_updNode_same s.nodes 0 _ hlen
  have hanch : (getN (updNode s.nodes 0 (fun n => n.anchorInitialVelocity 0)) 0
      ).initialAnchored = true := by
    rw [hg]; rfl
  have hiv : (getN (updNode s.nodes 0 (fun n => n.anchorInitialVelocity 0)) 0
      ).initialVelocity = 0 := by
    rw [hg]
    rcases h0 with h | h
    · simp [SolutionNode.anchorInitialVelocity, SolutionNode.setInitialVelocity, h]
    · by_cases ha : (getN s.nodes 0).initialAnchored = true
      · simpa [SolutionNode.anchorInitialVelocity, SolutionNode.setInitialVelocity, ha] using h
      · simp [SolutionNode.anchorInitialVelocity, SolutionNode.setInitialVelocity, ha]
  obtain ⟨e, v⟩ :=
    anchorInv_qssPhases s.vehicleModel (updNode s.nodes 0 (fun n => n.anchorInitialVelocity 0)) 0
  exact ⟨(v hanch).trans hiv, e.trans hanch⟩

/-- A one-node solution whose first node is not anchored. -/
noncomputable def c4Sol : Solution := { nodes := [c7Node], vehicleModel := failingVM }

/-- Witness for C4 at a concrete one-node solution: after the run the first
initial velocity is `0` and anchored. -/
theorem c4_first_node_anchor_witness :
    (getN (qssSolve c4Sol).nodes 0).initialVelocity = 0 ∧
    (getN (qssSolve c4Sol).nodes 0).initialAnchored = true :=
  (c4_first_node_anchor c4Sol (by simp [c4Sol]) (Or.inl rfl)).2


/-! ### Claim C5 — the lateral velocity limit -/

/-- The fuel loop of the point-mass lateral model returns an iterate of the
update step: the `k`-th iterate for the first `k ≤ fuel` at which the
available lateral force suffices, or the `fuel`-th iterate. -/
theorem lateralLoop_spec (vehicle : PointMassVehicle) (env : Environment) (node : TrackNode) :
    ∀ (fuel : ℕ) (v : ℝ), ∃ k ≤ fuel,
      lateralLoop vehicle env node fuel v = (lateralStep vehicle env node)^[k] v ∧
      (∀ m < k, lateralAvailableFy vehicle env node ((lateralStep vehicle env node)^[m] v) <
        lateralRequiredFy vehicle env node ((lateralStep vehicle env node)^[m] v)) ∧
      (k < fuel → ¬(lateralAvailableFy vehicle env node
          ((lateralStep vehicle env node)^[k] v) <
        lateralRequiredFy vehicle env node ((lateralStep vehicle env node)^[k] v))) := by
  intro fuel
  induction fuel with
  | zero =>
    intro v
    exact ⟨0, le_rfl, rfl, fun m hm => absurd hm (by omega), fun h => absurd h (by omega)⟩
  | succ fuel ih =>
    intro v
    rw [lateralLoop]
    by_cases h : lateralAvailableFy vehicle env node v < lateralRequiredFy vehicle env node v
    · rw [if_pos h]
      obtain ⟨k, hk, heq, hall, hstop⟩ := ih (lateralStep vehicle env node v)
      refine ⟨k + 1, by omega, ?_, ?_, ?_⟩
      · rw [heq, Function.iterate_succ_apply]
      · intro m hm
        cases m with
        | zero => simpa using h
        | succ m =>
          rw [Function.iterate_succ_apply]
          exact hall m (by omega)
      · intro hklt
        rw [Function.iterate_succ_apply]
        exact hstop (by omega)
    · rw [if_neg h]
      exact ⟨0, by omega, rfl, fun m hm => absurd hm (by omega), fun _ => h⟩

/-- C5: the lateral velocity limit operation returns the vehicle maximum
velocity immediately on a zero-curvature node; otherwise the point-mass
fixed-point iteration performs at most 10000 update steps starting from the
vehicle maximum velocity and returns the last iterate (stopping early
exactly when the available lateral force first suffices); consequently the
phase 1 sweep assigns the vehicle maximum velocity to every straight node
of a mesh. -/
theorem c5_lateral_velocity_limit (vehicle : PointMassVehicle) (env : Environment)
    (node : TrackNode) (mesh : Mesh) :
    (node.curvature = 0 → solveMaximumVelocity vehicle env node = vehicle.maximumVelocity) ∧
    (∃ k ≤ 10000, lateralVehicleModelPM vehicle env node =
      (lateralStep vehicle env node)^[k] vehicle.maximumVelocity ∧
      (∀ m < k, lateralAvailableFy vehicle env node
          ((lateralStep vehicle env node)^[m] vehicle.maximumVelocity) <
        lateralRequiredFy vehicle env node
          ((lateralStep vehicle env node)^[m] vehicle.maximumVelocity)) ∧
      (k < 10000 → ¬(lateralAvailableFy vehicle env node
          ((lateralStep vehicle env node)^[k] vehicle.maximumVelocity) <
        lateralRequiredFy vehicle env node
          ((lateralStep vehicle env node)^[k] vehicle.maximumVelocity)))) ∧
    (∀ j < mesh.nodes.length, (mesh.nodes.getD j default).curvature = 0 →
      (solveMeshMaximumVelocities vehicle env mesh).getD j 0 = vehicle.maximumVelocity) := by
  refine ⟨fun h => by rw [solveMaximumVelocity, if_pos h], ?_, ?_⟩
  · exact lateralLoop_spec vehicle env node 10000 vehicle.maximumVelocity
  · intro j hj hcurv
    have hget : (solveMeshMaximumVelocities vehicle env mesh).getD j 0 =
        solveMaximumVelocity vehicle env (mesh.nodes.getD j default) := by
      have hjj : mesh.nodes[j]? = some mesh.nodes[j] := List.getElem?_eq_getElem hj
      simp [solveMeshMaximumVelocities, List.getD_eq_getElem?_getD, List.getElem?_map, hjj]
    rw [hget, solveMaximumVelocity, if_pos hcurv]

/-- A concrete point-mass vehicle for the C5 witness. -/
noncomputable def c5Vehicle : PointMassVehicle :=
  { totalMass := 200
    maximumVelocity := 30
    getDownforce := fun _ => 0
    getDrag := fun _ => 0
    calculateLateralForce := fun _ _ => some 0 }

/-- Witness for C5 at a straight node: the limit is the motor cap `30`. -/
theorem c5_lateral_velocity_limit_witness :
    solveMaximumVelocity c5Vehicle {} (cTrackNode 0) = 30 :=
  (c5_lateral_velocity_limit c5Vehicle {} (cTrackNode 0) ⟨[], false⟩).1 rfl

/-! ### Claim C6 — the quasi-transient outer loop -/

/-- The iteration loop of the quasi-transient solver: entering the loop
after `j ≥ 1` completed QSS iterations, with the last recorded total time
being that of iterate `j`, the loop performs between `1` and `fuel` more
iterations, stops early exactly at the first iterate whose total time is
within tolerance of its predecessor, and returns that iterate. -/
theorem quasiTransientLoop_spec :
    ∀ (fuel : ℕ) (s0 : Solution) (j : ℕ) (ts : List ℝ), 1 ≤ fuel → 1 ≤ j → ts ≠ [] →
    ts.getD (ts.length - 1) 0 = (qssSolve^[j] s0).totalTime →
    ∃ k, j + 1 ≤ k ∧ k ≤ j + fuel ∧
      quasiTransientLoop (qssSolve^[j] s0) ts fuel = qssSolve^[k] s0 ∧
      (∀ m, j + 1 ≤ m → m < k →
        ¬(|(qssSolve^[m] s0).totalTime - (qssSolve^[m - 1] s0).totalTime| <
          convergenceTolerance)) ∧
      (k < j + fuel →
        |(qssSolve^[k] s0).totalTime - (qssSolve^[k - 1] s0).totalTime| <
          convergenceTolerance) := by
  intro fuel
  induction fuel with
  | zero => intro s0 j ts h1 _ _ _; omega
  | succ fuel ih =>
    intro s0 j ts _ hj hts hlast
    rw [quasiTransientLoop]
    have hnext : qssSolve (qssSolve^[j] s0) = qssSolve^[j + 1] s0 :=
      (Function.iterate_succ_apply' qssSolve j s0).symm
    have hlen2 : 2 ≤ (ts ++ [(qssSolve (qssSolve^[j] s0)).totalTime]).length := by
      have := List.length_pos.mpr hts
      simp only [List.length_append, List.length_cons, List.length_nil]
      omega
    have hget1 : (ts ++ [(qssSolve (qssSolve^[j] s0)).totalTime]).getD
        ((ts ++ [(qssSolve (qssSolve^[j] s0)).totalTime]).length - 1) 0 =
        (qssSolve^[j + 1] s0).totalTime := by
      rw [hnext]
      simp only [List.length_append, List.length_cons, List.length_nil]
      rw [List.getD_eq_getElem?_getD]
      rw [show ts.length + 1 - 1 = ts.length + 0 by omega]
      rw [List.getElem?_append_right (by omega)]
      simp
    have hget2 : (ts ++ [(qssSolve (qssSolve^[j] s0)).totalTime]).getD
        ((ts ++ [(qssSolve (qssSolve^[j] s0)).totalTime]).length - 2) 0 =
        (qssSolve^[j] s0).totalTime := by
      have hpos := List.length_pos.mpr hts
      simp only [List.length_append, List.length_cons, List.length_nil]
      rw [List.getD_eq_getElem?_getD]
      rw [show ts.length + 1 - 2 = ts.length - 1 by omega]
      rw [List.getElem?_append_left (by omega)]
      rw [← List.getD_eq_getElem?_getD ts _ 0]
      exact hlast
    have hconv : convergenceAchieved (ts ++ [(qssSolve (qssSolve^[j] s0)).totalTime])
        convergenceTolerance ↔
        |(qssSolve^[j + 1] s0).totalTime - (qssSolve^[j] s0).totalTime| <
          convergenceTolerance := by
      rw [convergenceAchieved, hget1, hget2]
      constructor
      · exact fun h => h.2
      · exact fun h => ⟨hlen2, h⟩
    by_cases hc : |(qssSolve^[j + 1] s0).totalTime - (qssSolve^[j] s0).totalTime| <
        convergenceTolerance
    · rw [if_pos (hconv.mpr hc)]
      refine ⟨j + 1, le_rfl, by omega, hnext, fun m hm1 hm2 => absurd hm1 (by omega),
        fun _ => ?_⟩
      simpa using hc
    · rw [if_neg (fun hcc => hc (hconv.mp hcc))]
      cases fuel with
      | zero =>
        refine ⟨j + 1, le_rfl, by omega, ?_, fun m hm1 hm2 => absurd hm1 (by omega),
          fun hk => absurd hk (by omega)⟩
        rw [quasiTransientLoop, hnext]
      | succ fuel =>
        have hts1 : (ts ++ [(qssSolve (qssSolve^[j] s0)).totalTime]) ≠ [] := by
          simp
        obtain ⟨k, hk1, hk2, heq, hmin, hstop⟩ :=
          ih s0 (j + 1) (ts ++ [(qssSolve (qssSolve^[j] s0)).totalTime]) (by omega)
            (by omega) hts1 hget1
        rw [hnext] at heq ⊢
        refine ⟨k, by omega, by omega, heq, ?_, fun hk => hstop (by omega)⟩
        intro m hm1 hm2
        by_cases hmj : m = j + 1
        · subst hmj
          simpa using hc
        · exact hmin m (by omega) hm2

/-- C6: the quasi-transient solver runs the QSS solver between 1 and 100
times and returns the last iterate; it stops early exactly at the first
iterate (from the second onwards) whose total lap time is within `1e-4` of
its predecessor, and reaching the 100-iteration cap just returns the last
iterate. -/
theorem c6_quasi_transient_cap (s : Solution) :
    ∃ k, 1 ≤ k ∧ k ≤ 100 ∧ quasiTransientSolve s = qssSolve^[k] s ∧
      (∀ m, 2 ≤ m → m < k →
        ¬(|(qssSolve^[m] s).totalTime - (qssSolve^[m - 1] s).totalTime| <
          convergenceTolerance)) ∧
      (k < 100 →
        |(qssSolve^[k] s).totalTime - (qssSolve^[k - 1] s).totalTime| <
          convergenceTolerance) := by
  rw [quasiTransientSolve, maximumTransientIterations]
  rw [quasiTransientLoop]
  rw [if_neg (by simp [convergenceAchieved])]
  have h1 : qssSolve s = qssSolve^[1] s := (Function.iterate_one qssSolve).symm ▸ rfl
  have hlast : ([] ++ [(qssSolve s).totalTime] : List ℝ).getD
      (([] ++ [(qssSolve s).totalTime] : List ℝ).length - 1) 0 =
      (qssSolve^[1] s).totalTime := by
    simp [Function.iterate_one]
  obtain ⟨k, hk1, hk2, heq, hmin, hstop⟩ :=
    quasiTransientLoop_spec 99 s 1 ([] ++ [(qssSolve s).totalTime]) (by omega) le_rfl
      (by simp) hlast
  rw [show qssSolve^[1] s = qssSolve s from Function.iterate_one qssSolve ▸ rfl] at heq
  exact ⟨k, by omega, by omega, heq, hmin, fun hklt => hstop (by omega)⟩

/-! ### Claim C8 — the state-of-charge recurrence of phase 6 -/

/-- The phase 6 loop never touches nodes strictly before its index. -/
theorem recalcLoop_frozen (vm : VehicleModel) (nodes : List SolutionNode) (i : ℕ) :
    ∀ j < i, getN (recalcLoop vm nodes i) j = getN nodes j := by
  induction nodes, i using recalcLoop.induct vm with
  | case1 nodes i h prev soc ih =>
    intro j hj
    rw [recalcLoop]
    simp only [dif_pos h]
    rw [ih j (by omega)]
    exact getN_updNode_ne nodes i j _ (by omega)
  | case2 nodes i h =>
    intro j hj
    rw [recalcLoop, dif_neg h]

/-- The phase 6 loop changes only the state variables of each node. -/
theorem recalcLoop_svOnly (vm : VehicleModel) (nodes : List SolutionNode) (i : ℕ) :
    ∀ j, getN (recalcLoop vm nodes i) j =
      { getN nodes j with stateVariables := (getN (recalcLoop vm nodes i) j).stateVariables } := by
  induction nodes, i using recalcLoop.induct vm with
  | case1 nodes i h prev soc ih =>
    intro j
    rw [recalcLoop]
    simp only [dif_pos h]
    rw [ih j]
    rw [getN_updNode]
    split
    · rename_i hc
      obtain ⟨rfl, _⟩ := hc
      rfl
    · rfl
  | case2 nodes i h =>
    intro j
    rw [recalcLoop, dif_neg h]

/-- The state-of-charge recurrence established by the phase 6 loop from
start index `i0 ≥ 1`. -/
theorem recalcLoop_soc (vm : VehicleModel) (nodes : List SolutionNode) (i0 : ℕ) :
    1 ≤ i0 → ∀ i, i0 ≤ i → i < nodes.length →
      (getN (recalcLoop vm nodes i0) i).stateVariables =
        ({ stateOfCharge := (vm.updateStateOfCharge
            (getN (recalcLoop vm nodes i0) (i - 1)).stateVariables.stateOfCharge
            (getN (recalcLoop vm nodes i0) (i - 1)).energyUsed) } : StateVariables) := by
  induction nodes, i0 using recalcLoop.induct vm with
  | case1 nodes i0 h prev soc ih =>
    intro h1 i hi0 hilen
    rw [recalcLoop]
    simp only [dif_pos h]
    by_cases hii : i = i0
    · subst hii
      rw [recalcLoop_frozen vm _ (i + 1) i (by omega)]
      rw [recalcLoop_frozen vm _ (i + 1) (i - 1) (by omega)]
      rw [getN_updNode_same nodes i _ h]
      rw [getN_updNode_ne nodes i (i - 1) _ (by omega)]
    · exact ih (by omega) i (by omega) (by rw [length_updNode]; omega)
  | case2 nodes i0 h =>
    intro h1 i hi0 hilen
    omega

/-- C8: phase 6 advances the state of charge by the recurrence
`soc[i] = update_soc(soc[i-1], energy_used[i-1])` for `i = 1 .. N-1`; and
whenever `update_soc` never increases the state of charge on nonnegative
energy (the property the spec ascribes to the powertrain) and the energy
uses are nonnegative, the resulting state of charge is non-increasing along
the solution. -/
theorem c8_soc_recurrence (vm : VehicleModel) (nodes : List SolutionNode) :
    (∀ i, 1 ≤ i → i < nodes.length →
      (getN (recalculateStateVariablesNodes vm nodes) i).stateVariables.stateOfCharge =
        vm.updateStateOfCharge
          (getN (recalculateStateVariablesNodes vm nodes) (i - 1)
            ).stateVariables.stateOfCharge
          (getN (recalculateStateVariablesNodes vm nodes) (i - 1)).energyUsed) ∧
    ((∀ soc e, 0 ≤ e → vm.updateStateOfCharge soc e ≤ soc) →
      (∀ j, 0 ≤ (getN nodes j).energyUsed) →
      ∀ i, i + 1 < nodes.length →
        (getN (recalculateStateVariablesNodes vm nodes) (i + 1)
          ).stateVariables.stateOfCharge ≤
        (getN (recalculateStateVariablesNodes vm nodes) i).stateVariables.stateOfCharge) := by
  have hrec : ∀ i, 1 ≤ i → i < nodes.length →
      (getN (recalculateStateVariablesNodes vm nodes) i).stateVariables.stateOfCharge =
        vm.updateStateOfCharge
          (getN (recalculateStateVariablesNodes vm nodes) (i - 1)
            ).stateVariables.stateOfCharge
          (getN (recalculateStateVariablesNodes vm nodes) (i - 1)).energyUsed := by
    intro i h1 h2
    rw [recalculateStateVariablesNodes]
    rw [recalcLoop_soc vm nodes 1 le_rfl i h1 h2]
  refine ⟨hrec, fun hmono hE i hi => ?_⟩
  have hEout : 0 ≤ (getN (recalculateStateVariablesNodes vm nodes) i).energyUsed := by
    rw [recalculateStateVariablesNodes]
    rw [recalcLoop_svOnly vm nodes 1 i]
    exact hE i
  have := hrec (i + 1) (by omega) hi
  rw [show i + 1 - 1 = i by omega] at this
  rw [this]
  exact hmono _ _ hEout

/-- A vehicle model whose state-of-charge update subtracts the energy
drawn. -/
noncomputable def c8VM : VehicleModel :=
  { lateralVehicleModel := fun _ _ => 0
    calculateAcceleration := fun _ _ _ => none
    calculateDeceleration := fun _ _ _ => none
    resolveVehicleState := fun _ _ _ => {}
    updateStateOfCharge := fun soc e => soc - e }

/-- Witness for C8 on a concrete two-node solution: the state of charge of
node `1` after phase 6 does not exceed that of node `0`. -/
theorem c8_soc_recurrence_witness :
    (getN (recalculateStateVariablesNodes c8VM
      [mkNode 0 0 0 1 false false, mkNode 0 0 1 1 false false]) 1
      ).stateVariables.stateOfCharge ≤
    (getN (recalculateStateVariablesNodes c8VM
      [mkNode 0 0 0 1 false false, mkNode 0 0 1 1 false false]) 0
      ).stateVariables.stateOfCharge :=
  (c8_soc_recurrence c8VM [mkNode 0 0 0 1 false false, mkNode 0 0 1 1 false false]).2
    (fun soc e he => by simp [c8VM]; linarith)
    (fun j => by
      by_cases hj : j < 2
      · interval_cases j <;>
          norm_num [getN, mkNode, SolutionNode.energyUsed, SolutionNode.time,
            SolutionNode.length, SolutionNode.averageVelocity, cTrackNode]
      · have hd : (default : SolutionNode).energyUsed = 0 := by
          rw [SolutionNode.energyUsed,
            show (default : SolutionNode).vehicleState.accumulatorPower = (0 : ℝ) from rfl,
            zero_mul]
        rw [getN_of_length_le _ j (by simp; omega), hd])
    0 (by norm_num)

/-! ### Claim C9 — the endurance mesh -/

theorem renumber_map_erase (l : List TrackNode) :
    ∀ p : ℝ, (renumber p l).map (fun n => { n with position := (0 : ℝ) }) =
      l.map (fun n => { n with position := (0 : ℝ) }) := by
  induction l with
  | nil => intro p; rfl
  | cons n rest ih =>
    intro p
    simp only [renumber, List.map_cons, ih]

theorem length_renumber (l : List TrackNode) : ∀ p : ℝ, (renumber p l).length = l.length := by
  induction l with
  | nil => intro p; rfl
  | cons n rest ih =>
    intro p
    simp only [renumber, List.length_cons, ih]

theorem renumber_head (l : List TrackNode) (p : ℝ) (h : l ≠ []) :
    ((renumber p l).getD 0 default).position = p := by
  cases l with
  | nil => exact absurd rfl h
  | cons n rest => rfl

theorem renumber_getD_length (l : List TrackNode) :
    ∀ (p : ℝ) (k : ℕ), k < l.length →
      ((renumber p l).getD k default).length = (l.getD k default).length := by
  induction l with
  | nil => intro p k h; simp at h
  | cons n rest ih =>
    intro p k h
    cases k with
    | zero => rfl
    | succ k => exact ih (p + n.length) k (by simpa using h)

theorem renumber_pos_step (l : List TrackNode) :
    ∀ (p : ℝ) (k : ℕ), k + 1 < l.length →
      ((renumber p l).getD (k + 1) default).position =
        ((renumber p l).getD k default).position +
          ((renumber p l).getD k default).length := by
  induction l with
  | nil => intro p k h; simp at h
  | cons n rest ih =>
    intro p k h
    cases k with
    | zero =>
      have hrest : rest ≠ [] := by
        intro hr
        rw [hr] at h
        simp at h
      show ((renumber (p + n.length) rest).getD 0 default).position = _
      rw [renumber_head rest (p + n.length) hrest]
      rfl
    | succ k =>
      show ((renumber (p + n.length) rest).getD (k + 1) default).position = _
      exact ih (p + n.length) k (by simpa using h)

theorem trackLength_renumber (l : List TrackNode) :
    ∀ p : ℝ, ((renumber p l).map TrackNode.length).sum = (l.map TrackNode.length).sum := by
  induction l with
  | nil => intro p; rfl
  | cons n rest ih =>
    intro p
    simp only [renumber, List.map_cons, List.sum_cons, ih]

theorem sum_flatten_replicate (l : List TrackNode) (k : ℕ) :
    (((List.replicate k l).flatten).map TrackNode.length).sum =
      (k : ℝ) * ((l.map TrackNode.length).sum) := by
  induction k with
  | zero => simp
  | succ k ih =>
    rw [List.replicate_succ, List.flatten_cons, List.map_append, List.sum_append, ih]
    push_cast
    ring

/-- C9: the endurance mesh consists of `ceil(22000 / L)` concatenated
copies of the base node sequence (equal to the base copies in every field
but the renumbered positions), its positions start at `0` and advance
cumulatively by the node lengths — hence are strictly increasing for a
valid mesh — and its total length is at least `22000`. -/
theorem c9_endurance_mesh (m : Mesh) (hne : m.nodes ≠ [])
    (hlen : ∀ n ∈ m.nodes, 0 < n.length) :
    (m.generateEnduranceMesh.nodes.map (fun n => { n with position := (0 : ℝ) }) =
      ((List.replicate ⌈enduranceTrackLength / m.trackLength⌉₊ m.nodes).flatten).map
        (fun n => { n with position := (0 : ℝ) })) ∧
    (m.generateEnduranceMesh.nodes.getD 0 default).position = 0 ∧
    (∀ k, k + 1 < m.generateEnduranceMesh.nodes.length →
      (m.generateEnduranceMesh.nodes.getD (k + 1) default).position =
        (m.generateEnduranceMesh.nodes.getD k default).position +
          (m.generateEnduranceMesh.nodes.getD k default).length) ∧
    List.Chain' (· < ·) (m.generateEnduranceMesh.nodes.map TrackNode.position) ∧
    22000 ≤ m.generateEnduranceMesh.trackLength := by
  have hflat : ∀ n ∈ (List.replicate ⌈enduranceTrackLength / m.trackLength⌉₊
      m.nodes).flatten, 0 < n.length := by
    intro n hn
    rw [List.mem_flatten] at hn
    obtain ⟨l, hl, hnl⟩ := hn
    rw [List.mem_replicate] at hl
    exact hlen n (hl.2 ▸ hnl)
  have hL : 0 < m.trackLength := by
    refine List.sum_pos _ ?_ (by simpa using hne)
    intro x hx
    rw [List.mem_map] at hx
    obtain ⟨n, hn, rfl⟩ := hx
    exact hlen n hn
  have hflatne : (List.replicate ⌈enduranceTrackLength / m.trackLength⌉₊
      m.nodes).flatten ≠ [] := by
    have hceil : 0 < ⌈enduranceTrackLength / m.trackLength⌉₊ := by
      rw [Nat.lt_ceil]
      push_cast
      rw [show enduranceTrackLength = 22000 from rfl]
      positivity
    intro hnil
    have : m.nodes ≠ [] := hne
    cases hk : ⌈enduranceTrackLength / m.trackLength⌉₊ with
    | zero => omega
    | succ k =>
      rw [hk, List.replicate_succ, List.flatten_cons] at hnil
      rcases List.append_eq_nil.mp hnil with ⟨h1, _⟩
      exact hne h1
  have hstep : ∀ k, k + 1 < m.generateEnduranceMesh.nodes.length →
      (m.generateEnduranceMesh.nodes.getD (k + 1) default).position =
        (m.generateEnduranceMesh.nodes.getD k default).position +
          (m.generateEnduranceMesh.nodes.getD k default).length := by
    intro k hk
    have hk2 : k + 1 < ((List.replicate ⌈enduranceTrackLength / m.trackLength⌉₊
        m.nodes).flatten).length := by
      have := hk
      simp only [Mesh.generateEnduranceMesh] at this
      rwa [length_renumber] at this
    exact renumber_pos_step _ 0 k hk2
  refine ⟨renumber_map_erase _ 0, renumber_head _ 0 hflatne, hstep, ?_, ?_⟩
  · rw [List.chain'_map]
    rw [List.chain'_iff_get]
    intro k hk
    have hk1 : k + 1 < m.generateEnduranceMesh.nodes.length := by omega
    have hstepk := hstep k hk1
    have hgd : ∀ (i : ℕ) (hi : i < m.generateEnduranceMesh.nodes.length),
        m.generateEnduranceMesh.nodes.get ⟨i, hi⟩ =
          m.generateEnduranceMesh.nodes.getD i default := by
      intro i hi
      rw [List.getD_eq_getElem?_getD, List.getElem?_eq_getElem hi]
      rfl
    rw [hgd k (by omega), hgd (k + 1) (by omega), hstepk]
    have hpos : 0 < (m.generateEnduranceMesh.nodes.getD k default).length := by
      have hk3 : k < ((List.replicate ⌈enduranceTrackLength / m.trackLength⌉₊
          m.nodes).flatten).length := by
        have := hk1
        simp only [Mesh.generateEnduranceMesh] at this
        rw [length_renumber] at this
        omega
      have := renumber_getD_length _ 0 k hk3
      simp only [Mesh.generateEnduranceMesh]
      rw [this]
      have hmem : ((List.replicate ⌈enduranceTrackLength / m.trackLength⌉₊
          m.nodes).flatten).getD k default ∈
          (List.replicate ⌈enduranceTrackLength / m.trackLength⌉₊ m.nodes).flatten := by
        rw [List.getD_eq_getElem?_getD, List.getElem?_eq_getElem hk3]
        exact List.getElem_mem hk3
      exact hflat _ hmem
    linarith
  · have htl : m.generateEnduranceMesh.trackLength =
        (⌈enduranceTrackLength / m.trackLength⌉₊ : ℝ) * m.trackLength := by
      rw [Mesh.generateEnduranceMesh]
      show ((renumber 0 _).map TrackNode.length).sum = _
      rw [trackLength_renumber, sum_flatten_replicate]
      rfl
    rw [htl]
    have hceil : enduranceTrackLength / m.trackLength ≤
        (⌈enduranceTrackLength / m.trackLength⌉₊ : ℝ) := Nat.le_ceil _
    have h22 : (22000 : ℝ) = enduranceTrackLength / m.trackLength * m.trackLength := by
      rw [div_mul_cancel₀ _ (ne_of_gt hL)]
      rfl
    rw [h22]
    exact mul_le_mul_of_nonneg_right hceil (le_of_lt hL)

/-- A one-node mesh of length `12000` for the C9 witness: the endurance
replication count is `2` and the endurance length `24000`. -/
noncomputable def c9Mesh : Mesh :=
  { nodes := [{ position := 0, length := 12000, curvature := 0, elevation := 0 }]
    closed := true }

/-- Witness for C9: the endurance mesh derived from `c9Mesh` is at least
`22000` long. -/
theorem c9_endurance_mesh_witness :
    22000 ≤ c9Mesh.generateEnduranceMesh.trackLength :=
  (c9_endurance_mesh c9Mesh (by simp [c9Mesh])
    (by intro n hn; simp only [c9Mesh, List.mem_singleton] at hn; rw [hn]; norm_num)
    ).2.2.2.2

/-! ### Claim C10 — mesh generation mutates its track data -/

/-- C10: `generate_mesh` is not side-effect-free on its `TrackData`
argument: the grip-factor and sector startpoint data it returns carry an
appended infinite sentinel position and a duplicate of the last value, and
in particular the stored position lists are no longer the lists the track
was given. -/
theorem c10_generate_mesh_mutates_track_data (resolution : ℝ) (td : TrackData) :
    (generateMesh resolution td).2.gripFactor.position = td.gripFactor.position ++ [⊤] ∧
    (generateMesh resolution td).2.gripFactor.value =
      td.gripFactor.value ++ [td.gripFactor.value.getLastD default] ∧
    (generateMesh resolution td).2.sector.position = td.sector.position ++ [⊤] ∧
    (generateMesh resolution td).2.sector.value =
      td.sector.value ++ [td.sector.value.getLastD default] ∧
    (generateMesh resolution td).2.gripFactor.position ≠ td.gripFactor.position ∧
    (generateMesh resolution td).2.sector.position ≠ td.sector.position := by
  refine ⟨rfl, rfl, rfl, rfl, ?_, ?_⟩
  · intro h
    have hlen := congrArg List.length h
    simp only [List.length_append, List.length_singleton] at hlen
    have : (generateMesh resolution td).2.gripFactor.position =
        td.gripFactor.position ++ [⊤] := rfl
    rw [this] at hlen
    simp only [List.length_append, List.length_singleton] at hlen
    omega
  · intro h
    have hlen := congrArg List.length h
    have : (generateMesh resolution td).2.sector.position =
        td.sector.position ++ [⊤] := rfl
    rw [this] at hlen
    simp only [List.length_append, List.length_singleton] at hlen
    omega

end USMLap
